import Mathlib

/-! # The Athenaeum backend: bulk book import

A shallow embedding of `src/routes/books.js` (the column normaliser
`normalizeRow`, the pipeline `validateAndInsertBooks` and the handler of
`POST /upload`) together with the part of the JavaScript runtime these
functions observe, followed by theorems about them.

Conventions of the embedding.

* A JavaScript string is a Lean `String`; the functions below work on its list
  of characters.
* The method `toLowerCase` follows the Unicode case mapping of the runtime,
  which is not part of the repository: where the code lowercases a title or an
  author, the embedding takes the method as a parameter `toLowerCase`, and the
  theorems hold for every such function.  Where the code lowercases a string
  that holds ASCII letters and digits only, or compares the result with a
  word of ASCII letters, the method is `asciiToLowerCase`, which is exact
  there; the closed examples use it on ASCII titles and authors.
* A JavaScript number is a `JSNum`: `NaN`, an infinity, or a signed decimal
  `±m·10^e`.  Every IEEE double is such a decimal.  Conversion from a string
  models overflow to an infinity and underflow to a signed zero; rounding of the
  mantissa to 53 bits is not modelled, as neither `isNaN` nor `< 0` observes it.
* A JavaScript object value other than a row (an Array, a plain object, a
  `Date`) is represented by what the code observes of it: the result of its
  `toString()` and the result of `Number(...)` on it.
* A row is the list of its own enumerable entries in key iteration order.
-/

set_option exponentiation.threshold 2048

namespace Athenaeum

/-! ## JavaScript values -/

/-- A JavaScript number: `NaN`, `±Infinity`, or the decimal `(-1)^neg · m · 10^e`
(so `dec true 0 0` is `-0`). -/
inductive JSNum where
  | nan
  | inf (neg : Bool)
  | dec (neg : Bool) (m : Nat) (e : Int)
  deriving DecidableEq, Repr

/-- A JavaScript value as it can occur in a field of a submitted row. -/
inductive JSValue where
  | undefined
  | null
  | boolean (b : Bool)
  | number (n : JSNum)
  | string (s : String)
  | object (str : String) (num : JSNum)
  deriving DecidableEq, Repr

/-- A row object: its entries in key iteration order. -/
abbrev JSObject := List (String × JSValue)

/-- The keys of an object, `Object.keys(o)`. -/
def JSObject.keys (o : JSObject) : List String := o.map Prod.fst

/-- Property read `o[k]` (also `o.k`): the value stored under `k`, `undefined` when there is none. -/
def JSObject.get : JSObject → String → JSValue
  | [], _ => JSValue.undefined
  | (k', v) :: rest, k => if k' = k then v else JSObject.get rest k

/-- Property write `o[k] = v`: overwrite in place, or append a new entry. -/
def JSObject.set : JSObject → String → JSValue → JSObject
  | [], k, v => [(k, v)]
  | (k', v') :: rest, k, v =>
    if k' = k then (k', v) :: rest else (k', v') :: JSObject.set rest k v

/-! ## Numbers -/

/-- The test `isNaN(n)` on a number. -/
def JSNum.isNaN : JSNum → Bool
  | JSNum.nan => true
  | _ => false

/-- The comparison `n < 0`: false for `NaN`, for both zeros and for `+Infinity`. -/
def JSNum.ltZero : JSNum → Bool
  | JSNum.nan => false
  | JSNum.inf neg => neg
  | JSNum.dec neg m _ => neg && decide (m ≠ 0)

/-- The comparison `n >= 0`: false for `NaN`, true for both zeros. -/
def JSNum.geZero : JSNum → Bool
  | JSNum.nan => false
  | JSNum.inf neg => !neg
  | JSNum.dec neg m _ => !neg || decide (m = 0)

/-- Truthiness of a number: `NaN`, `0` and `-0` are falsy. -/
def JSNum.truthy : JSNum → Bool
  | JSNum.nan => false
  | JSNum.inf _ => true
  | JSNum.dec _ m _ => decide (m ≠ 0)

/-- The number `0`. -/
def JSNum.zero : JSNum := JSNum.dec false 0 0

/-- The number `1`. -/
def JSNum.one : JSNum := JSNum.dec false 1 0

/-! ## Strings -/

/-- The characters `String.prototype.trim` removes and `Number` skips:
`WhiteSpace` and `LineTerminator` of the language grammar. -/
def isJSWhiteSpace (c : Char) : Bool :=
  let n := c.toNat
  n = 0x09 || n = 0x0A || n = 0x0B || n = 0x0C || n = 0x0D || n = 0x20 ||
  n = 0xA0 || n = 0x1680 || (0x2000 ≤ n && n ≤ 0x200A) ||
  n = 0x2028 || n = 0x2029 || n = 0x202F || n = 0x205F || n = 0x3000 || n = 0xFEFF

/-- Trimming of a list of characters at both ends. -/
def trimChars (cs : List Char) : List Char :=
  ((cs.dropWhile isJSWhiteSpace).reverse.dropWhile isJSWhiteSpace).reverse

/-- The method `s.trim()`. -/
def trim (s : String) : String := String.mk (trimChars s.data)

/-- The method `s.toLowerCase()` on a string of ASCII characters: the letters
`A`-`Z` become `a`-`z`, every other character is kept.  It is not the method on
other strings, whose cased letters the runtime folds as well. -/
def asciiToLowerCase (s : String) : String := String.mk (s.data.map Char.toLower)

/-- Truthiness of a string: only the empty string is falsy. -/
def strTruthy (s : String) : Bool := !(s.data.isEmpty)

/-- The decimal digits of a natural number, most significant first. -/
def natDigits (n : Nat) : List Char := (Nat.toDigits 10 n)

/-- Remove trailing zeros of a non-zero mantissa, raising the exponent. -/
def stripZeros : Nat → Nat → Int → Nat × Int
  | 0, m, e => (m, e)
  | fuel + 1, m, e => if m ≠ 0 ∧ m % 10 = 0 then stripZeros fuel (m / 10) (e + 1) else (m, e)

/-- The text of a positive decimal `m·10^e`, following `Number::toString`:
plain digits up to 21 integer digits, a leading `0.` down to `1e-6`,
exponent form otherwise. -/
def posDecToString (m : Nat) (e : Int) : String :=
  let me := stripZeros m m e
  let s := natDigits me.1
  let k : Int := s.length
  let n : Int := me.2 + k
  if k ≤ n ∧ n ≤ 21 then
    String.mk (s ++ List.replicate (n - k).toNat '0')
  else if 0 < n ∧ n ≤ 21 then
    String.mk (s.take n.toNat ++ '.' :: s.drop n.toNat)
  else if -6 < n ∧ n ≤ 0 then
    String.mk ('0' :: '.' :: List.replicate (-n).toNat '0' ++ s)
  else
    let x := n - 1
    let ex := (if x < 0 then '-' else '+') :: natDigits x.natAbs
    match s with
    | [] => String.mk ('e' :: ex)
    | [d] => String.mk (d :: 'e' :: ex)
    | d :: ds => String.mk (d :: '.' :: ds ++ 'e' :: ex)

/-- The method `n.toString()` of a number. -/
def JSNum.toString : JSNum → String
  | JSNum.nan => "NaN"
  | JSNum.inf false => "Infinity"
  | JSNum.inf true => "-Infinity"
  | JSNum.dec neg m e =>
    if m = 0 then "0"
    else if neg then String.mk ('-' :: (posDecToString m e).data)
    else posDecToString m e

/-! ## Conversion of a string to a number -/

/-- The value of a digit character in a base up to 16, when it is one. -/
def digitValue (base : Nat) (c : Char) : Option Nat :=
  let n := c.toNat
  let v :=
    if 48 ≤ n ∧ n ≤ 57 then some (n - 48)
    else if 97 ≤ n ∧ n ≤ 102 then some (n - 87)
    else if 65 ≤ n ∧ n ≤ 70 then some (n - 55)
    else none
  match v with
  | some d => if d < base then some d else none
  | none => none

/-- Read a whole list of characters as digits of a base; `none` when the list is
empty or holds another character. -/
def readDigits (base : Nat) (cs : List Char) : Option Nat :=
  if cs.isEmpty then none
  else cs.foldl (fun acc c =>
    match acc, digitValue base c with
    | some a, some d => some (a * base + d)
    | _, _ => none) (some 0)

/-- Bring an exact decimal into the range of a double: magnitudes from
`2^1024 - 2^970` up become an infinity, magnitudes up to `2^-1075` become a zero
of the same sign. -/
def toDoubleRange (neg : Bool) (m : Nat) (e : Int) : JSNum :=
  if m = 0 then JSNum.dec neg 0 0
  else if 0 ≤ e then
    if 2 ^ 1024 - 2 ^ 970 ≤ m * 10 ^ e.toNat then JSNum.inf neg else JSNum.dec neg m e
  else
    let d := 10 ^ (-e).toNat
    if (2 ^ 1024 - 2 ^ 970) * d ≤ m then JSNum.inf neg
    else if m * 2 ^ 1075 ≤ d then JSNum.dec neg 0 0
    else JSNum.dec neg m e

/-- An optional sign in front of a list of characters. -/
def readSign : List Char → Bool × List Char
  | '-' :: cs => (true, cs)
  | '+' :: cs => (false, cs)
  | cs => (false, cs)

/-- The exponent part after `e` or `E`: an optional sign and at least one digit. -/
def readExponent (cs : List Char) : Option Int :=
  let sc := readSign cs
  match readDigits 10 sc.2 with
  | some x => some (if sc.1 then -(x : Int) else (x : Int))
  | none => none

/-- An unsigned `StrUnsignedDecimalLiteral` other than `Infinity`: integer digits,
an optional fraction and an optional exponent, with at least one digit before the
exponent.  The result is the mantissa and the decimal exponent. -/
def readUnsignedDecimal (cs : List Char) : Option (Nat × Int) :=
  let ip := cs.span Char.isDigit
  let fr : List Char × List Char :=
    match ip.2 with
    | '.' :: rest => rest.span Char.isDigit
    | rest => ([], rest)
  let digits := ip.1 ++ fr.1
  if digits.isEmpty then none
  else
    let ex : Option Int :=
      match fr.2 with
      | [] => some 0
      | 'e' :: rest => readExponent rest
      | 'E' :: rest => readExponent rest
      | _ => none
    match readDigits 10 digits, ex with
    | some m, some x => some (m, x - (fr.1.length : Int))
    | _, _ => none

/-- A `StrNumericLiteral` without surrounding white space. -/
def readNumericLiteral (cs : List Char) : JSNum :=
  match cs with
  | '0' :: 'x' :: ds | '0' :: 'X' :: ds =>
    match readDigits 16 ds with
    | some n => toDoubleRange false n 0
    | none => JSNum.nan
  | '0' :: 'o' :: ds | '0' :: 'O' :: ds =>
    match readDigits 8 ds with
    | some n => toDoubleRange false n 0
    | none => JSNum.nan
  | '0' :: 'b' :: ds | '0' :: 'B' :: ds =>
    match readDigits 2 ds with
    | some n => toDoubleRange false n 0
    | none => JSNum.nan
  | _ =>
    let sc := readSign cs
    if sc.2 = "Infinity".data then JSNum.inf sc.1
    else
      match readUnsignedDecimal sc.2 with
      | some me => toDoubleRange sc.1 me.1 me.2
      | none => JSNum.nan

/-- The conversion `Number(s)` of a string: white space is trimmed, the empty
string is `0`, anything that is not a numeric literal is `NaN`. -/
def stringToNumber (s : String) : JSNum :=
  let cs := trimChars s.data
  if cs.isEmpty then JSNum.zero else readNumericLiteral cs

/-! ## Conversions of values -/

/-- Truthiness of a value, as tested by `||` and `? :`. -/
def JSValue.truthy : JSValue → Bool
  | JSValue.undefined => false
  | JSValue.null => false
  | JSValue.boolean b => b
  | JSValue.number n => n.truthy
  | JSValue.string s => strTruthy s
  | JSValue.object _ _ => true

/-- The string of a value, as produced by a template literal; on a value that is
neither `null` nor `undefined` it is also the result of `v.toString()`. -/
def JSValue.toStr : JSValue → String
  | JSValue.undefined => "undefined"
  | JSValue.null => "null"
  | JSValue.boolean true => "true"
  | JSValue.boolean false => "false"
  | JSValue.number n => n.toString
  | JSValue.string s => s
  | JSValue.object str _ => str

/-- The conversion `Number(v)`. -/
def JSValue.toNumber : JSValue → JSNum
  | JSValue.undefined => JSNum.nan
  | JSValue.null => JSNum.zero
  | JSValue.boolean true => JSNum.one
  | JSValue.boolean false => JSNum.zero
  | JSValue.number n => n
  | JSValue.string s => stringToNumber s
  | JSValue.object _ num => num

/-- The expression `v?.toString().trim() ?? ""`. -/
def trimmedOrEmpty : JSValue → String
  | JSValue.undefined => ""
  | JSValue.null => ""
  | v => trim v.toStr

/-- The expression `v ?? 0`. -/
def orZero : JSValue → JSValue
  | JSValue.undefined => JSValue.number JSNum.zero
  | JSValue.null => JSValue.number JSNum.zero
  | v => v

/-- The expression `v || "Available"`. -/
def orAvailable (v : JSValue) : JSValue :=
  if v.truthy then v else JSValue.string "Available"

/-! ## Column normaliser -/

/-- The table `FIELD_MAP`: each canonical field with its accepted header aliases. -/
def FIELD_MAP : List (String × List String) :=
  [ ("title", ["title", "Title"]),
    ("author", ["author", "Author"]),
    ("genre", ["genre", "Genre"]),
    ("publishedCount", ["publishedcount", "published_count", "Publication_Count", "publishedCount"]),
    ("status", ["status", "Status"]),
    ("height", ["height", "Height"]),
    ("publisher", ["publisher", "Publisher"]),
    ("location", ["location", "Location", "Library_Location"]) ]

/-- The eight canonical field names. -/
def canonicalFields : List String :=
  ["title", "author", "genre", "publishedCount", "status", "height", "publisher", "location"]

/-- The expression `s.replace(/[^a-z0-9]/gi, "").toLowerCase()`: keep the ASCII
letters and digits, then lowercase. -/
def stripHeader (s : String) : String :=
  asciiToLowerCase (String.mk (s.data.filter Char.isAlphanum))

/-- The characters the specification calls alphanumeric, those the pattern
`[^a-z0-9]` with the flag `i` leaves in place: a letter `a`-`z` or `A`-`Z`, or a
digit `0`-`9`. -/
def isAsciiLetterOrDigit (c : Char) : Bool :=
  (97 ≤ c.toNat && c.toNat ≤ 122) || (65 ≤ c.toNat && c.toNat ≤ 90) ||
    (48 ≤ c.toNat && c.toNat ≤ 57)

/-- The small letter of a capital `A`-`Z`; any other character unchanged. -/
def smallLetter (c : Char) : Char :=
  if 65 ≤ c.toNat ∧ c.toNat ≤ 90 then Char.ofNat (c.toNat + 32) else c

/-- The comparison form of a header in the words of the specification: every
non-alphanumeric character is removed, then the header is lowercased. -/
def specHeaderForm (s : String) : List Char :=
  (s.data.filter isAsciiLetterOrDigit).map smallLetter

/-- The two inner loops of `normalizeRow`: over the aliases of one field and, for
each alias, over the keys of the row; `found` is overwritten at every match. -/
def findColumn (variants : List String) (row : JSObject) : Option String :=
  variants.foldl (fun found v =>
    row.keys.foldl (fun found k =>
      if stripHeader k = stripHeader v then some k else found) found) none

/-- The function `normalizeRow`. -/
def normalizeRow (row : JSObject) : JSObject :=
  FIELD_MAP.foldl (fun mapped kv =>
    match findColumn kv.2 row with
    | some found => mapped.set kv.1 (row.get found)
    | none => mapped) []

/-! ## Validation -/

/-- The coerced row `b` built by `validateAndInsertBooks`. -/
structure Book where
  title : String
  author : String
  genre : String
  publishedCount : JSNum
  status : String
  height : String
  publisher : String
  location : String
  deriving DecidableEq, Repr

/-- An entry of `invalidBooks`: `{ row: index + 2, ...b }`. -/
structure InvalidBook extends Book where
  row : Nat
  deriving DecidableEq, Repr

/-- A stored catalog document: the book fields and the identifier given by the store. -/
structure CatalogBook extends Book where
  _id : Nat
  deriving DecidableEq, Repr

/-- The constant `allowedStatuses`. -/
def allowedStatuses : List String := ["Available", "Borrowed"]

/-- The object literal `b` of the validation loop. -/
def coerceBook (book : JSObject) : Book :=
  { title := trimmedOrEmpty (book.get "title")
    author := trimmedOrEmpty (book.get "author")
    genre := trimmedOrEmpty (book.get "genre")
    publishedCount := (orZero (book.get "publishedCount")).toNumber
    status := trim (orAvailable (book.get "status")).toStr
    height := if (book.get "height").truthy then (book.get "height").toStr else ""
    publisher := trimmedOrEmpty (book.get "publisher")
    location := trimmedOrEmpty (book.get "location") }

/-- The condition of the `if` in the validation loop. -/
def isInvalid (b : Book) : Bool :=
  !strTruthy b.title ||
  !strTruthy b.author ||
  b.publishedCount.isNaN ||
  b.publishedCount.ltZero ||
  (strTruthy b.status && !allowedStatuses.contains b.status)

/-- One turn of `books.forEach((book, index) => ...)`: push to `invalidBooks` or to
`validBooks`. -/
def validateStep (acc : List Book × List InvalidBook) (ib : Nat × JSObject) :
    List Book × List InvalidBook :=
  let b := coerceBook ib.2
  if isInvalid b then (acc.1, acc.2 ++ [{ toBook := b, row := ib.1 + 2 }])
  else (acc.1 ++ [b], acc.2)

/-- The validation step of `validateAndInsertBooks`: the pair `(validBooks, invalidBooks)`
after the `forEach`. -/
def validateRows (books : List JSObject) : List Book × List InvalidBook :=
  books.enum.foldl validateStep ([], [])

/-- A field value that is absent, empty or made of white space only. -/
def isBlank : JSValue → Bool
  | JSValue.undefined => true
  | JSValue.null => true
  | JSValue.string s => s.data.all isJSWhiteSpace
  | _ => false

/-! ## Duplicate filter and insertion -/

/-- The duplicate key, the template literal of title and author lowercased, joined
by `-`.  The parameter `toLowerCase` is the method of the runtime. -/
def dupKey (toLowerCase : String → String) (title author : String) : String :=
  toLowerCase title ++ "-" ++ toLowerCase author

/-- The set `existingSet` built from the result of the existence query. -/
def existingSet (toLowerCase : String → String) (existingBooks : List CatalogBook) :
    List String :=
  existingBooks.map (fun b => dupKey toLowerCase b.title b.author)

/-- The list `newBooks`: the valid rows whose key is not in `existingSet`. -/
def newBooks (toLowerCase : String → String) (existingBooks : List CatalogBook)
    (validBooks : List Book) : List Book :=
  validBooks.filter (fun b =>
    !(existingSet toLowerCase existingBooks).contains
      (dupKey toLowerCase b.title b.author))

/-- The storage layer as the pipeline uses it.  `find` answers the query
`{ $or: [{ title, author }, ...] }`, `insertMany` is the unordered batched insert
and returns the documents it stored; either may throw. -/
structure Storage where
  find : List (String × String) → Except String (List CatalogBook)
  insertMany : List Book → Except String (List CatalogBook)

/-- The existence query over a catalog: the documents whose title and author both
equal those of one of the queried pairs. -/
def findBooks (catalog : List CatalogBook) (query : List (String × String)) : List CatalogBook :=
  catalog.filter (fun c => query.contains (c.title, c.author))

/-- A storage layer whose query reads a given catalog. -/
def catalogStorage (catalog : List CatalogBook)
    (insertMany : List Book → Except String (List CatalogBook)) : Storage :=
  { find := fun query => Except.ok (findBooks catalog query)
    insertMany := insertMany }

/-- The body of a JSON response. -/
inductive Body where
  | message (message : String)
  | noValid (message : String) (invalidCount : Nat) (invalidBooks : List InvalidBook)
  | allDuplicates (message : String) (duplicateCount : Nat) (invalidBooks : List InvalidBook)
  | report (message : String) (totalSubmitted insertedCount duplicateCount invalidCount : Nat)
      (invalidBooks : List InvalidBook) (insertedBooks : List CatalogBook)
  | failure (message : String) (error : String)
  deriving DecidableEq, Repr

/-- A response: status code and body. -/
structure Response where
  status : Nat
  body : Body
  deriving DecidableEq, Repr

/-- What a call of `validateAndInsertBooks` does: the response it sends, or the
error it throws, and the rows it passed to `Book.insertMany` when it made that call. -/
structure Run where
  result : Except String Response
  insertCall : Option (List Book)

/-- The function `validateAndInsertBooks`.  The parameter `toLowerCase` is the
method of the runtime used in the duplicate keys. -/
def validateAndInsertBooks (toLowerCase : String → String) (db : Storage)
    (books : List JSObject) : Run :=
  let validBooks := (validateRows books).1
  let invalidBooks := (validateRows books).2
  if validBooks.length = 0 then
    { result := Except.ok ⟨400, Body.noValid "No valid book entries to insert."
        invalidBooks.length invalidBooks⟩
      insertCall := none }
  else
    match db.find (validBooks.map (fun b => (b.title, b.author))) with
    | Except.error e => { result := Except.error e, insertCall := none }
    | Except.ok existingBooks =>
      let newBooks := newBooks toLowerCase existingBooks validBooks
      if newBooks.length = 0 then
        { result := Except.ok ⟨400, Body.allDuplicates "All submitted books already exist."
            validBooks.length invalidBooks⟩
          insertCall := none }
      else
        match db.insertMany newBooks with
        | Except.error e => { result := Except.error e, insertCall := some newBooks }
        | Except.ok inserted =>
          { result := Except.ok ⟨201, Body.report "Bulk insert completed"
              books.length inserted.length (validBooks.length - newBooks.length)
              invalidBooks.length invalidBooks inserted⟩
            insertCall := some newBooks }

/-! ## The handler of `POST /upload` -/

/-- The expression `originalname.split(".").pop().toLowerCase()`.  The handler only
compares the result with `csv`, `xlsx` and `xlsm`; no letter outside `A`-`Z`
lowercases to one of their letters, so folding `A`-`Z` decides these comparisons
as the runtime does. -/
def fileExtension (originalname : String) : String :=
  asciiToLowerCase
    (String.mk (originalname.data.reverse.takeWhile (fun c => c != '.')).reverse)

/-- The call `fs.unlinkSync(filePath)` on the flag telling whether the temporary file
exists: it removes the file, and throws when there is none. -/
def unlinkSync (fileExists : Bool) : Except String Bool :=
  if fileExists then Except.ok false else Except.error "ENOENT: no such file or directory"

/-- The handler after the rows are read: delete the temporary file, answer 400 on
an empty list, otherwise run the pipeline.  The result is the response sent or the
error thrown, with the file flag at that point. -/
def afterParse (toLowerCase : String → String) (db : Storage) (books : List JSObject)
    (fileExists : Bool) : Except String Response × Bool :=
  match unlinkSync fileExists with
  | Except.error e => (Except.error e, fileExists)
  | Except.ok gone =>
    if books.length = 0 then
      (Except.ok ⟨400, Body.message "No data found in file"⟩, gone)
    else ((validateAndInsertBooks toLowerCase db books).result, gone)

/-- The body of the `try` block of the handler for a request that carries a file.
`parsed` is what reading the file gives (the stream of the CSV parser, or
`XLSX.readFile` with `sheet_to_json`): the raw rows, or the error thrown. -/
def uploadTry (toLowerCase : String → String) (db : Storage) (originalname : String)
    (parsed : Except String (List JSObject)) (fileExists : Bool) :
    Except String Response × Bool :=
  let ext := fileExtension originalname
  if ext = "csv" then
    match parsed with
    | Except.error e => (Except.error e, fileExists)
    | Except.ok rows => afterParse toLowerCase db (rows.map normalizeRow) fileExists
  else if ext = "xlsx" ∨ ext = "xlsm" then
    match parsed with
    | Except.error e => (Except.error e, fileExists)
    | Except.ok sheetData =>
      afterParse toLowerCase db (sheetData.map normalizeRow) fileExists
  else
    match unlinkSync fileExists with
    | Except.error e => (Except.error e, fileExists)
    | Except.ok gone => (Except.ok ⟨400, Body.message "Unsupported file type"⟩, gone)

/-- The handler of `POST /upload` for a request that carries a file: the `try`
block, and the `catch` that answers 500.  The result is the response and the flag
telling whether the temporary file still exists. -/
def uploadHandler (toLowerCase : String → String) (db : Storage) (originalname : String)
    (parsed : Except String (List JSObject)) (fileExists : Bool) : Response × Bool :=
  match uploadTry toLowerCase db originalname parsed fileExists with
  | (Except.ok res, stillThere) => (res, stillThere)
  | (Except.error e, stillThere) =>
    (⟨500, Body.failure "Failed to upload books" e⟩, stillThere)

/-! ## A worked example -/

/-- A batched insert that stores every row it is given, numbering the documents from 100. -/
def storeAll (rows : List Book) : Except String (List CatalogBook) :=
  Except.ok (rows.enum.map (fun ib => { toBook := ib.2, _id := 100 + ib.1 }))

/-- A catalog of one book. -/
def sampleCatalog : List CatalogBook :=
  [{ title := "Dune", author := "Herbert", genre := "", publishedCount := JSNum.dec false 3 0,
     status := "Available", height := "", publisher := "", location := "", _id := 1 }]

/-- Five submitted rows: two invalid (no author; a negative count), one that is in
`sampleCatalog`, two new and valid. -/
def sampleRows : List JSObject :=
  [ [("title", JSValue.string "Emma"), ("author", JSValue.string "Austen")],
    [("title", JSValue.string "Ulysses")],
    [("title", JSValue.string "Dune"), ("author", JSValue.string "Herbert")],
    [("title", JSValue.string "Hamlet"), ("author", JSValue.string "Shakespeare"),
      ("publishedCount", JSValue.number (JSNum.dec true 1 0))],
    [("title", JSValue.string "Walden"), ("author", JSValue.string "Thoreau"),
      ("status", JSValue.string "Borrowed")] ]

/-! # Theorems -/

/-! ## Strings: basic facts -/

theorem strTruthy_eq_false_iff (s : String) : strTruthy s = false ↔ s = "" := by
  cases s with
  | mk cs => cases cs <;> simp [strTruthy, String.ext_iff]

theorem strTruthy_eq_true_iff (s : String) : strTruthy s = true ↔ s ≠ "" := by
  have h := strTruthy_eq_false_iff s
  constructor
  · intro h1 h2
    rw [h.mpr h2] at h1
    exact Bool.noConfusion h1
  · intro h1
    cases hs : strTruthy s
    · exact absurd (h.mp hs) h1
    · rfl

theorem allowedStatuses_contains (s : String) :
    allowedStatuses.contains s = true ↔ s = "Available" ∨ s = "Borrowed" := by
  simp [allowedStatuses]

theorem trimChars_of_all_white (cs : List Char) (h : ∀ c ∈ cs, isJSWhiteSpace c = true) :
    trimChars cs = [] := by
  have h1 : cs.dropWhile isJSWhiteSpace = [] := by
    rw [List.dropWhile_eq_nil_iff]; exact h
  simp [trimChars, h1]

/-! ## The validation loop -/

/-- The condition of the validation loop, in words of the coerced fields. -/
theorem isInvalid_iff (b : Book) :
    isInvalid b = true ↔
      (b.title = "" ∨ b.author = "" ∨ b.publishedCount = JSNum.nan ∨
        b.publishedCount.ltZero = true ∨
        (b.status ≠ "" ∧ b.status ≠ "Available" ∧ b.status ≠ "Borrowed")) := by
  have hnan : b.publishedCount.isNaN = true ↔ b.publishedCount = JSNum.nan := by
    cases b.publishedCount <;> simp [JSNum.isNaN]
  simp only [isInvalid, Bool.or_eq_true, Bool.and_eq_true, Bool.not_eq_true',
    strTruthy_eq_false_iff, strTruthy_eq_true_iff, hnan, or_assoc]
  have hst : allowedStatuses.contains b.status = false ↔
      (b.status ≠ "Available" ∧ b.status ≠ "Borrowed") := by
    rw [← Bool.not_eq_true, allowedStatuses_contains]; tauto
  rw [hst]

/-- The loop from any accumulator: valid rows are appended in order to the first
list, invalid rows with their index to the second. -/
theorem foldl_validateStep (books : List JSObject) (n : Nat) (acc : List Book × List InvalidBook) :
    (books.enumFrom n).foldl validateStep acc =
      (acc.1 ++ (books.map coerceBook).filter (fun b => !isInvalid b),
       acc.2 ++ ((books.enumFrom n).filter (fun ib => isInvalid (coerceBook ib.2))).map
          (fun ib => ({ toBook := coerceBook ib.2, row := ib.1 + 2 } : InvalidBook))) := by
  induction books generalizing n acc with
  | nil => simp
  | cons r rest ih =>
    simp only [List.enumFrom_cons, List.foldl_cons, List.map_cons]
    rw [ih]
    by_cases hb : isInvalid (coerceBook r) = true
    · simp [validateStep, hb, List.filter_cons]
    · simp [validateStep, hb, List.filter_cons]

theorem validateRows_eq (books : List JSObject) :
    validateRows books =
      ((books.map coerceBook).filter (fun b => !isInvalid b),
       (books.enum.filter (fun ib => isInvalid (coerceBook ib.2))).map
          (fun ib => ({ toBook := coerceBook ib.2, row := ib.1 + 2 } : InvalidBook))) := by
  simp [validateRows, List.enum, foldl_validateStep]

theorem mem_validBooks (books : List JSObject) (b : Book) :
    b ∈ (validateRows books).1 ↔ (∃ r ∈ books, coerceBook r = b) ∧ isInvalid b = false := by
  simp [validateRows_eq, List.mem_filter]

theorem mem_invalidBooks (books : List JSObject) (x : InvalidBook) :
    x ∈ (validateRows books).2 ↔
      ∃ i r, books[i]? = some r ∧ isInvalid (coerceBook r) = true ∧
        x = { toBook := coerceBook r, row := i + 2 } := by
  simp only [validateRows_eq, List.mem_map, List.mem_filter, List.mem_enum_iff_getElem?]
  constructor
  · rintro ⟨⟨i, r⟩, ⟨h1, h2⟩, rfl⟩
    exact ⟨i, r, h1, h2, rfl⟩
  · rintro ⟨i, r, h1, h2, rfl⟩
    exact ⟨(i, r), ⟨h1, h2⟩, rfl⟩

theorem trimmedOrEmpty_of_isBlank (v : JSValue) (h : isBlank v = true) : trimmedOrEmpty v = "" := by
  cases v with
  | undefined => rfl
  | null => rfl
  | boolean b => simp [isBlank] at h
  | number n => simp [isBlank] at h
  | object s n => simp [isBlank] at h
  | string s =>
    simp only [isBlank, List.all_eq_true] at h
    simp [trimmedOrEmpty, JSValue.toStr, trim, trimChars_of_all_white s.data h]

/-- C1. For every list of submitted rows and every index `i` in it, with `b` the
coerced row: the entry `{ row: i + 2, ...b }` is in `invalidBooks` if and only if
the title of `b` is empty, or its author is empty, or its publishedCount is `NaN`,
or its publishedCount is below 0, or its status is non-empty and neither
`Available` nor `Borrowed`; `b` is in `validBooks` if and only if none of these
holds; and a row whose title or author is absent, empty or white space only is
not in `validBooks`. -/
theorem validation_invalid_iff (books : List JSObject) (i : Nat) (h : i < books.length) :
    let b := coerceBook books[i]
    let bad := b.title = "" ∨ b.author = "" ∨ b.publishedCount = JSNum.nan ∨
        b.publishedCount.ltZero = true ∨
        (b.status ≠ "" ∧ b.status ≠ "Available" ∧ b.status ≠ "Borrowed")
    ((({ toBook := b, row := i + 2 } : InvalidBook) ∈ (validateRows books).2 ↔ bad) ∧
      (b ∈ (validateRows books).1 ↔ ¬ bad) ∧
      ((isBlank (books[i].get "title") = true ∨ isBlank (books[i].get "author") = true) →
        b ∉ (validateRows books).1 ∧
          ({ toBook := b, row := i + 2 } : InvalidBook) ∈ (validateRows books).2)) := by
  intro b bad
  have hbad : isInvalid b = true ↔ bad := isInvalid_iff b
  have hinv : ({ toBook := b, row := i + 2 } : InvalidBook) ∈ (validateRows books).2 ↔ bad := by
    rw [mem_invalidBooks, ← hbad]
    constructor
    · rintro ⟨j, r, hj, hr, heq⟩
      have hrow : i + 2 = j + 2 := congrArg InvalidBook.row heq
      have hij : j = i := by omega
      subst hij
      have hr' : books[j] = r := by
        rw [List.getElem?_eq_getElem h] at hj
        exact Option.some.inj hj
      rw [← hr'] at hr
      exact hr
    · intro hb
      exact ⟨i, books[i], List.getElem?_eq_getElem h, hb, rfl⟩
  have hval : b ∈ (validateRows books).1 ↔ ¬ bad := by
    rw [mem_validBooks, ← hbad]
    constructor
    · rintro ⟨_, hb⟩; simp [hb]
    · intro hb
      exact ⟨⟨books[i], List.getElem_mem h, rfl⟩, by simpa using hb⟩
  refine ⟨hinv, hval, ?_⟩
  intro hblank
  have hb : bad := by
    rcases hblank with ht | ha
    · exact Or.inl (trimmedOrEmpty_of_isBlank _ ht)
    · exact Or.inr (Or.inl (trimmedOrEmpty_of_isBlank _ ha))
  exact ⟨fun hmem => (hval.mp hmem) hb, hinv.mpr hb⟩

theorem validation_invalid_iff_witness :
    1 < [[("title", JSValue.string " Dune "), ("author", JSValue.string "Herbert")],
          [("title", JSValue.string " \t "), ("author", JSValue.string "X")]].length ∧
    ({ title := "", author := "X", genre := "", publishedCount := JSNum.zero,
       status := "Available", height := "", publisher := "", location := "", row := 3 } :
        InvalidBook) ∈
      (validateRows [[("title", JSValue.string " Dune "), ("author", JSValue.string "Herbert")],
          [("title", JSValue.string " \t "), ("author", JSValue.string "X")]]).2 :=
  ⟨by decide,
   ((validation_invalid_iff
      [[("title", JSValue.string " Dune "), ("author", JSValue.string "Herbert")],
       [("title", JSValue.string " \t "), ("author", JSValue.string "X")]] 1 (by decide)).2.2
      (Or.inl (by decide))).2⟩

/-- C2, as stated, fails: rows whose publishedCount is an empty string, a white
space only string or a boolean are all placed in `validBooks`, with publishedCount
0, 0 and 1, and none of them in `invalidBooks`. -/
theorem blank_or_boolean_publishedCount_valid :
    validateRows
      [[("title", JSValue.string "Dune"), ("author", JSValue.string "Herbert"),
          ("publishedCount", JSValue.string "")],
       [("title", JSValue.string "Emma"), ("author", JSValue.string "Austen"),
          ("publishedCount", JSValue.string "  ")],
       [("title", JSValue.string "Ulysses"), ("author", JSValue.string "Joyce"),
          ("publishedCount", JSValue.boolean true)]] =
      ([{ title := "Dune", author := "Herbert", genre := "", publishedCount := JSNum.dec false 0 0,
          status := "Available", height := "", publisher := "", location := "" },
        { title := "Emma", author := "Austen", genre := "", publishedCount := JSNum.dec false 0 0,
          status := "Available", height := "", publisher := "", location := "" },
        { title := "Ulysses", author := "Joyce", genre := "", publishedCount := JSNum.dec false 1 0,
          status := "Available", height := "", publisher := "", location := "" }], []) := by
  decide

/-- C2, amended. For every submitted row whose publishedCount is present (neither
`null` nor `undefined`) and whose conversion `Number(publishedCount)` is `NaN` or
below 0, the validation step places the row in `invalidBooks` and not in
`validBooks`. -/
theorem nan_or_negative_publishedCount_invalid (books : List JSObject) (i : Nat)
    (h : i < books.length)
    (hpresent : books[i].get "publishedCount" ≠ JSValue.undefined ∧
      books[i].get "publishedCount" ≠ JSValue.null)
    (hbad : (books[i].get "publishedCount").toNumber = JSNum.nan ∨
      (books[i].get "publishedCount").toNumber.ltZero = true) :
    ({ toBook := coerceBook books[i], row := i + 2 } : InvalidBook) ∈ (validateRows books).2 ∧
      coerceBook books[i] ∉ (validateRows books).1 := by
  have hpc : (coerceBook books[i]).publishedCount = (books[i].get "publishedCount").toNumber := by
    simp only [coerceBook]
    cases hv : books[i].get "publishedCount" with
    | undefined => exact absurd hv hpresent.1
    | null => exact absurd hv hpresent.2
    | boolean b => rfl
    | number n => rfl
    | string s => rfl
    | object s n => rfl
  have hinv : isInvalid (coerceBook books[i]) = true := by
    rw [isInvalid_iff, hpc]
    rcases hbad with hb | hb
    · exact Or.inr (Or.inr (Or.inl hb))
    · exact Or.inr (Or.inr (Or.inr (Or.inl hb)))
  constructor
  · rw [mem_invalidBooks]
    exact ⟨i, books[i], List.getElem?_eq_getElem h, hinv, rfl⟩
  · rw [mem_validBooks]
    rintro ⟨_, hv⟩
    rw [hinv] at hv
    exact Bool.noConfusion hv

theorem nan_or_negative_publishedCount_invalid_witness :
    ({ title := "Dune", author := "Herbert", genre := "", publishedCount := JSNum.nan,
       status := "Available", height := "", publisher := "", location := "", row := 2 } :
        InvalidBook) ∈
      (validateRows [[("title", JSValue.string "Dune"), ("author", JSValue.string "Herbert"),
          ("publishedCount", JSValue.string "abc")]]).2 ∧
    ({ title := "Emma", author := "Austen", genre := "", publishedCount := JSNum.dec true 3 0,
       status := "Available", height := "", publisher := "", location := "", row := 3 } :
        InvalidBook) ∈
      (validateRows [[("title", JSValue.string "Dune"), ("author", JSValue.string "Herbert")],
          [("title", JSValue.string "Emma"), ("author", JSValue.string "Austen"),
            ("publishedCount", JSValue.string " -3 ")]]).2 :=
  ⟨(nan_or_negative_publishedCount_invalid
      [[("title", JSValue.string "Dune"), ("author", JSValue.string "Herbert"),
          ("publishedCount", JSValue.string "abc")]] 0 (by decide)
      ⟨by decide, by decide⟩ (Or.inl (by decide))).1,
   (nan_or_negative_publishedCount_invalid
      [[("title", JSValue.string "Dune"), ("author", JSValue.string "Herbert")],
          [("title", JSValue.string "Emma"), ("author", JSValue.string "Austen"),
            ("publishedCount", JSValue.string " -3 ")]] 1 (by decide)
      ⟨by decide, by decide⟩ (Or.inr (by decide))).1⟩

/-! ## The pipeline -/

/-- When the pipeline reaches `Book.insertMany`, the existence query has answered
and the rows passed are `newBooks`, a non-empty list. -/
theorem insertCall_eq_some (toLowerCase : String → String) (db : Storage)
    (books : List JSObject) (rows : List Book)
    (h : (validateAndInsertBooks toLowerCase db books).insertCall = some rows) :
    ∃ existingBooks,
      db.find ((validateRows books).1.map (fun b => (b.title, b.author))) =
        Except.ok existingBooks ∧
      rows = newBooks toLowerCase existingBooks (validateRows books).1 ∧ rows ≠ [] := by
  unfold validateAndInsertBooks at h
  by_cases h0 : (validateRows books).1.length = 0
  · simp [h0] at h
  · simp only [h0, if_false] at h
    cases hf : db.find ((validateRows books).1.map (fun b => (b.title, b.author))) with
    | error e => simp [hf] at h
    | ok existingBooks =>
      simp only [hf] at h
      by_cases h1 : (newBooks toLowerCase existingBooks (validateRows books).1).length = 0
      · simp [h1] at h
      · simp only [h1, if_false] at h
        refine ⟨existingBooks, rfl, ?_, ?_⟩
        · cases hi : db.insertMany (newBooks toLowerCase existingBooks (validateRows books).1) <;>
            simp [hi] at h <;> exact h.symm
        · cases hi : db.insertMany (newBooks toLowerCase existingBooks (validateRows books).1) <;>
            simp [hi] at h <;> (rw [← h]; intro hnil; exact h1 (by simp [hnil]))

theorem mem_newBooks (toLowerCase : String → String) (existingBooks : List CatalogBook)
    (validBooks : List Book) (b : Book) :
    b ∈ newBooks toLowerCase existingBooks validBooks ↔
      b ∈ validBooks ∧ ∀ c ∈ existingBooks,
        dupKey toLowerCase c.title c.author ≠ dupKey toLowerCase b.title b.author := by
  simp [newBooks, existingSet, List.mem_filter]

theorem geZero_of_not_nan_not_lt (n : JSNum) (h1 : n ≠ JSNum.nan) (h2 : n.ltZero ≠ true) :
    n.geZero = true := by
  cases n with
  | nan => exact absurd rfl h1
  | inf neg => cases neg <;> simp_all [JSNum.ltZero, JSNum.geZero]
  | dec neg m e =>
    cases neg <;> simp_all [JSNum.ltZero, JSNum.geZero]

/-- C3, as stated, fails: a row whose status is a white space only string is valid
and is passed to the batched insert with the empty status, which is neither
`Available` nor `Borrowed`. -/
theorem blank_status_row_inserted :
    (validateAndInsertBooks asciiToLowerCase (catalogStorage [] (fun _ => Except.ok []))
      [[("title", JSValue.string "Dune"), ("author", JSValue.string "Herbert"),
        ("status", JSValue.string "  ")]]).insertCall =
      some [{ title := "Dune", author := "Herbert", genre := "",
              publishedCount := JSNum.dec false 0 0, status := "", height := "",
              publisher := "", location := "" }] ∧
    ("" : String) ∉ allowedStatuses := by
  decide

/-- C3, amended. Every row that `validateAndInsertBooks` passes to the batched
insert has a non-empty title, a non-empty author, publishedCount `>= 0`, and a
status that is `Available`, `Borrowed` or the empty string; it is the coercion of
a submitted row. -/
theorem inserted_rows_invariant (toLowerCase : String → String) (db : Storage)
    (books : List JSObject) (rows : List Book)
    (h : (validateAndInsertBooks toLowerCase db books).insertCall = some rows)
    (b : Book) (hb : b ∈ rows) :
    b.title ≠ "" ∧ b.author ≠ "" ∧ b.publishedCount.geZero = true ∧
      (b.status = "Available" ∨ b.status = "Borrowed" ∨ b.status = "") ∧
      ∃ r ∈ books, coerceBook r = b := by
  obtain ⟨existingBooks, _, hrows, _⟩ := insertCall_eq_some toLowerCase db books rows h
  rw [hrows, mem_newBooks] at hb
  obtain ⟨⟨hr, hv⟩, _⟩ := And.intro ((mem_validBooks books b).mp hb.1) hb.2
  have hnot : ¬ (isInvalid b = true) := by simp [hv]
  rw [isInvalid_iff] at hnot
  push_neg at hnot
  obtain ⟨ht, ha, hn, hl, hs⟩ := hnot
  refine ⟨ht, ha, geZero_of_not_nan_not_lt _ hn hl, ?_, hr⟩
  by_cases h1 : b.status = ""
  · exact Or.inr (Or.inr h1)
  · by_cases h2 : b.status = "Available"
    · exact Or.inl h2
    · exact Or.inr (Or.inl (hs h1 h2))

theorem inserted_rows_invariant_witness :
    ("Dune" : String) ≠ "" ∧ ("Herbert" : String) ≠ "" ∧
      (JSNum.dec false 3 0).geZero = true ∧
      (("Borrowed" : String) = "Available" ∨ ("Borrowed" : String) = "Borrowed" ∨
        ("Borrowed" : String) = "") ∧
      ∃ r ∈ [[("title", JSValue.string "Dune"), ("author", JSValue.string "Herbert"),
              ("publishedCount", JSValue.string "3"), ("status", JSValue.string "Borrowed")]],
        coerceBook r =
          { title := "Dune", author := "Herbert", genre := "",
            publishedCount := JSNum.dec false 3 0, status := "Borrowed", height := "",
            publisher := "", location := "" } :=
  inserted_rows_invariant asciiToLowerCase (catalogStorage [] (fun _ => Except.ok []))
    [[("title", JSValue.string "Dune"), ("author", JSValue.string "Herbert"),
      ("publishedCount", JSValue.string "3"), ("status", JSValue.string "Borrowed")]]
    [{ title := "Dune", author := "Herbert", genre := "",
       publishedCount := JSNum.dec false 3 0, status := "Borrowed", height := "",
       publisher := "", location := "" }]
    (by decide)
    { title := "Dune", author := "Herbert", genre := "",
      publishedCount := JSNum.dec false 3 0, status := "Borrowed", height := "",
      publisher := "", location := "" }
    (by decide)

theorem mem_findBooks (catalog : List CatalogBook) (query : List (String × String))
    (c : CatalogBook) :
    c ∈ findBooks catalog query ↔ c ∈ catalog ∧ (c.title, c.author) ∈ query := by
  simp [findBooks, List.mem_filter]

theorem pair_mem_query (validBooks : List Book) (t a : String) :
    (t, a) ∈ validBooks.map (fun b => (b.title, b.author)) ↔
      ∃ v ∈ validBooks, v.title = t ∧ v.author = a := by
  simp [List.mem_map]

/-- C4 on the code, for every lowercasing method. A list that repeats a row has
both copies passed to the same insert; and a row that differs from a catalog book
only in letter case is passed to the insert, as the exact-match query does not
return that book, although the two have the same lowercased key. -/
theorem duplicate_pairs_inserted (toLowerCase : String → String) :
    (validateAndInsertBooks toLowerCase (catalogStorage [] (fun _ => Except.ok []))
      [[("title", JSValue.string "Dune"), ("author", JSValue.string "Herbert")],
       [("title", JSValue.string "Dune"), ("author", JSValue.string "Herbert")]]).insertCall =
      some [{ title := "Dune", author := "Herbert", genre := "",
              publishedCount := JSNum.dec false 0 0, status := "Available", height := "",
              publisher := "", location := "" },
            { title := "Dune", author := "Herbert", genre := "",
              publishedCount := JSNum.dec false 0 0, status := "Available", height := "",
              publisher := "", location := "" }] ∧
    (validateAndInsertBooks toLowerCase
      (catalogStorage
        [{ title := "Dune", author := "Herbert", genre := "",
           publishedCount := JSNum.dec false 0 0, status := "Available", height := "",
           publisher := "", location := "", _id := 1 }]
        (fun _ => Except.ok []))
      [[("title", JSValue.string "dune"), ("author", JSValue.string "herbert")]]).insertCall =
      some [{ title := "dune", author := "herbert", genre := "",
              publishedCount := JSNum.dec false 0 0, status := "Available", height := "",
              publisher := "", location := "" }] ∧
    dupKey asciiToLowerCase "dune" "herbert" = dupKey asciiToLowerCase "Dune" "Herbert" := by
  refine ⟨rfl, rfl, by decide⟩

/-- C5. Idempotence of import, for every lowercasing method. Run
`validateAndInsertBooks` on a list against a catalog; let the catalog afterwards keep every book it had and hold, for every row
that was passed to the batched insert, a book with that title and author. Then
running `validateAndInsertBooks` on the same list against the resulting catalog
passes no row to the batched insert. -/
theorem second_import_inserts_nothing (toLowerCase : String → String)
    (catalog catalog' : List CatalogBook)
    (insertMany insertMany' : List Book → Except String (List CatalogBook))
    (books : List JSObject)
    (hkeep : ∀ c ∈ catalog, c ∈ catalog')
    (hstored : ∀ rows,
      (validateAndInsertBooks toLowerCase (catalogStorage catalog insertMany) books).insertCall =
        some rows →
      ∀ b ∈ rows, ∃ c ∈ catalog', c.title = b.title ∧ c.author = b.author) :
    (validateAndInsertBooks toLowerCase (catalogStorage catalog' insertMany')
      books).insertCall = none := by
  cases hrun2 : (validateAndInsertBooks toLowerCase (catalogStorage catalog' insertMany')
      books).insertCall with
  | none => rfl
  | some rows2 =>
    exfalso
    obtain ⟨ex2, hfind2, hrows2, hne2⟩ := insertCall_eq_some toLowerCase _ books rows2 hrun2
    have hex2 : ex2 =
        findBooks catalog' ((validateRows books).1.map (fun b => (b.title, b.author))) := by
      simp only [catalogStorage] at hfind2
      exact (Except.ok.inj hfind2).symm
    obtain ⟨b, hb⟩ := List.exists_mem_of_ne_nil rows2 hne2
    rw [hrows2, mem_newBooks] at hb
    obtain ⟨hbv, hkeys2⟩ := hb
    have hvne : (validateRows books).1.length ≠ 0 := by
      intro h0
      rw [List.length_eq_zero] at h0
      rw [h0] at hbv
      exact List.not_mem_nil _ hbv
    -- a catalog book with the pair of `b` is returned by the second query
    have hfound : ∀ c ∈ catalog',
        (∃ v ∈ (validateRows books).1, v.title = c.title ∧ v.author = c.author) →
        dupKey toLowerCase c.title c.author ≠ dupKey toLowerCase b.title b.author := by
      intro c hc hv
      apply hkeys2
      rw [hex2, mem_findBooks]
      exact ⟨hc, (pair_mem_query _ _ _).mpr hv⟩
    -- first run: was `b` among the new rows?
    by_cases hnew : b ∈ newBooks toLowerCase
        (findBooks catalog ((validateRows books).1.map (fun b => (b.title, b.author))))
        (validateRows books).1
    · have hcall : (validateAndInsertBooks toLowerCase (catalogStorage catalog insertMany) books).insertCall =
          some (newBooks toLowerCase
            (findBooks catalog ((validateRows books).1.map (fun b => (b.title, b.author))))
            (validateRows books).1) := by
        have hlen : (newBooks toLowerCase
            (findBooks catalog ((validateRows books).1.map (fun b => (b.title, b.author))))
            (validateRows books).1).length ≠ 0 := by
          intro h0
          rw [List.length_eq_zero] at h0
          rw [h0] at hnew
          exact List.not_mem_nil _ hnew
        unfold validateAndInsertBooks
        simp only [hvne, if_false, catalogStorage, hlen]
        cases insertMany (newBooks toLowerCase
            (findBooks catalog ((validateRows books).1.map (fun b => (b.title, b.author))))
            (validateRows books).1) <;> rfl
      obtain ⟨c, hc, ht, ha⟩ := hstored _ hcall b hnew
      exact hfound c hc ⟨b, hbv, ht.symm, ha.symm⟩ (by rw [ht, ha])
    · rw [mem_newBooks] at hnew
      push_neg at hnew
      obtain ⟨c, hc, hkey⟩ := hnew hbv
      rw [mem_findBooks] at hc
      exact hfound c (hkeep c hc.1) ((pair_mem_query _ _ _).mp hc.2) hkey

theorem second_import_inserts_nothing_witness :
    (validateAndInsertBooks asciiToLowerCase
      (catalogStorage
        [{ title := "Emma", author := "Austen", genre := "",
           publishedCount := JSNum.dec false 0 0, status := "Available", height := "",
           publisher := "", location := "", _id := 1 },
         { title := "Dune", author := "Herbert", genre := "",
           publishedCount := JSNum.dec false 0 0, status := "Available", height := "",
           publisher := "", location := "", _id := 2 }]
        (fun _ => Except.ok []))
      [[("title", JSValue.string "Dune"), ("author", JSValue.string "Herbert")],
       [("title", JSValue.string "emma"), ("author", JSValue.string "")],
       [("title", JSValue.string "Emma"), ("author", JSValue.string "Austen")]]).insertCall =
      none :=
  second_import_inserts_nothing asciiToLowerCase
    [{ title := "Emma", author := "Austen", genre := "",
       publishedCount := JSNum.dec false 0 0, status := "Available", height := "",
       publisher := "", location := "", _id := 1 }]
    [{ title := "Emma", author := "Austen", genre := "",
       publishedCount := JSNum.dec false 0 0, status := "Available", height := "",
       publisher := "", location := "", _id := 1 },
     { title := "Dune", author := "Herbert", genre := "",
       publishedCount := JSNum.dec false 0 0, status := "Available", height := "",
       publisher := "", location := "", _id := 2 }]
    (fun _ => Except.ok []) (fun _ => Except.ok [])
    [[("title", JSValue.string "Dune"), ("author", JSValue.string "Herbert")],
     [("title", JSValue.string "emma"), ("author", JSValue.string "")],
     [("title", JSValue.string "Emma"), ("author", JSValue.string "Austen")]]
    (by decide)
    (by
      intro rows hrows b hb
      have hcall : (validateAndInsertBooks asciiToLowerCase
          (catalogStorage
            [{ title := "Emma", author := "Austen", genre := "",
               publishedCount := JSNum.dec false 0 0, status := "Available", height := "",
               publisher := "", location := "", _id := 1 }]
            (fun _ => Except.ok []))
          [[("title", JSValue.string "Dune"), ("author", JSValue.string "Herbert")],
           [("title", JSValue.string "emma"), ("author", JSValue.string "")],
           [("title", JSValue.string "Emma"), ("author", JSValue.string "Austen")]]).insertCall =
          some [{ title := "Dune", author := "Herbert", genre := "",
                  publishedCount := JSNum.dec false 0 0, status := "Available", height := "",
                  publisher := "", location := "" }] := by decide
      rw [hcall] at hrows
      have hr := Option.some.inj hrows
      subst hr
      have hb' := List.eq_of_mem_singleton hb
      subst hb'
      exact ⟨_, List.mem_cons_of_mem _ (List.mem_singleton_self _), rfl, rfl⟩)

theorem length_filter_add_not {α : Type} (p : α → Bool) (l : List α) :
    (l.filter p).length + (l.filter (fun a => !p a)).length = l.length := by
  induction l with
  | nil => rfl
  | cons a t ih =>
    cases hp : p a <;> simp [List.filter_cons, hp] <;> omega

theorem length_valid_add_invalid (books : List JSObject) :
    (validateRows books).1.length + (validateRows books).2.length = books.length := by
  have key : ∀ (l : List JSObject) (n : Nat),
      ((l.map coerceBook).filter (fun b => !isInvalid b)).length +
        ((l.enumFrom n).filter (fun ib => isInvalid (coerceBook ib.2))).length = l.length := by
    intro l
    induction l with
    | nil => intro n; rfl
    | cons r rest ih =>
      intro n
      have := ih (n + 1)
      cases hb : isInvalid (coerceBook r) <;>
        simp [List.filter_cons, hb] <;> omega
  rw [validateRows_eq]
  simpa [List.enum] using key books 0

/-- C6. For every lowercasing method and every import call that reaches the final
report (the 201 response):
the rows `newBooks` were passed to the batched insert, which returned `inserted`,
and the report has totalSubmitted equal to the number of submitted rows,
insertedCount equal to the number of documents returned by the insert,
duplicateCount equal to the number of valid rows whose key is in the set of
existing keys, and invalidCount equal to the number of rows that failed
validation; when the insert stored every row passed to it, insertedCount is the
number of new rows and totalSubmitted = insertedCount + duplicateCount +
invalidCount. -/
theorem final_report_counts (toLowerCase : String → String) (db : Storage)
    (books : List JSObject) (res : Response)
    (h : (validateAndInsertBooks toLowerCase db books).result = Except.ok res)
    (h201 : res.status = 201) :
    ∃ existingBooks rows inserted,
      db.find ((validateRows books).1.map (fun b => (b.title, b.author))) =
        Except.ok existingBooks ∧
      (validateAndInsertBooks toLowerCase db books).insertCall = some rows ∧
      db.insertMany rows = Except.ok inserted ∧
      res.body = Body.report "Bulk insert completed" books.length inserted.length
        ((validateRows books).1.filter (fun b =>
          (existingSet toLowerCase existingBooks).contains
            (dupKey toLowerCase b.title b.author))).length
        (validateRows books).2.length (validateRows books).2 inserted ∧
      (inserted.length = rows.length →
        books.length = inserted.length +
          ((validateRows books).1.filter (fun b =>
            (existingSet toLowerCase existingBooks).contains
              (dupKey toLowerCase b.title b.author))).length +
          (validateRows books).2.length) := by
  have hsplit := length_valid_add_invalid books
  unfold validateAndInsertBooks at h ⊢
  by_cases h0 : (validateRows books).1.length = 0
  · simp only [h0, if_true] at h
    have hres := Except.ok.inj h
    rw [← hres] at h201
    simp at h201
  · simp only [h0, if_false] at h ⊢
    cases hf : db.find ((validateRows books).1.map (fun b => (b.title, b.author))) with
    | error e => simp [hf] at h
    | ok existingBooks =>
      simp only [hf] at h ⊢
      by_cases h1 : (newBooks toLowerCase existingBooks (validateRows books).1).length = 0
      · simp only [h1, if_true] at h
        have hres := Except.ok.inj h
        rw [← hres] at h201
        simp at h201
      · simp only [h1, if_false] at h ⊢
        cases hi : db.insertMany (newBooks toLowerCase existingBooks (validateRows books).1) with
        | error e => simp [hi] at h
        | ok inserted =>
          simp only [hi] at h ⊢
          have hres := Except.ok.inj h
          have hdup : (validateRows books).1.length -
              (newBooks toLowerCase existingBooks (validateRows books).1).length =
              ((validateRows books).1.filter (fun b =>
                (existingSet toLowerCase existingBooks).contains
                  (dupKey toLowerCase b.title b.author))).length := by
            have := length_filter_add_not
              (fun b : Book => (existingSet toLowerCase existingBooks).contains
                (dupKey toLowerCase b.title b.author))
              (validateRows books).1
            unfold newBooks
            omega
          refine ⟨existingBooks, _, inserted, rfl, rfl, hi, ?_, ?_⟩
          · rw [← hres, hdup]
          · intro hall
            have := length_filter_add_not
              (fun b : Book => (existingSet toLowerCase existingBooks).contains
                (dupKey toLowerCase b.title b.author))
              (validateRows books).1
            rw [hall]
            unfold newBooks
            omega

theorem final_report_counts_witness :
    (validateAndInsertBooks asciiToLowerCase (catalogStorage sampleCatalog storeAll) sampleRows).result =
      Except.ok ⟨201, Body.report "Bulk insert completed" 5 2 1 2
        [ { title := "Ulysses", author := "", genre := "", publishedCount := JSNum.dec false 0 0,
            status := "Available", height := "", publisher := "", location := "", row := 3 },
          { title := "Hamlet", author := "Shakespeare", genre := "",
            publishedCount := JSNum.dec true 1 0, status := "Available", height := "",
            publisher := "", location := "", row := 5 } ]
        [ { title := "Emma", author := "Austen", genre := "",
            publishedCount := JSNum.dec false 0 0, status := "Available", height := "",
            publisher := "", location := "", _id := 100 },
          { title := "Walden", author := "Thoreau", genre := "",
            publishedCount := JSNum.dec false 0 0, status := "Borrowed", height := "",
            publisher := "", location := "", _id := 101 } ]⟩ ∧
    ∃ existingBooks rows inserted,
      (catalogStorage sampleCatalog storeAll).find
          ((validateRows sampleRows).1.map (fun b => (b.title, b.author))) =
        Except.ok existingBooks ∧
      (validateAndInsertBooks asciiToLowerCase (catalogStorage sampleCatalog storeAll) sampleRows).insertCall =
        some rows ∧
      (catalogStorage sampleCatalog storeAll).insertMany rows = Except.ok inserted ∧
      Body.report "Bulk insert completed" 5 2 1 2
        [ { title := "Ulysses", author := "", genre := "", publishedCount := JSNum.dec false 0 0,
            status := "Available", height := "", publisher := "", location := "", row := 3 },
          { title := "Hamlet", author := "Shakespeare", genre := "",
            publishedCount := JSNum.dec true 1 0, status := "Available", height := "",
            publisher := "", location := "", row := 5 } ]
        [ { title := "Emma", author := "Austen", genre := "",
            publishedCount := JSNum.dec false 0 0, status := "Available", height := "",
            publisher := "", location := "", _id := 100 },
          { title := "Walden", author := "Thoreau", genre := "",
            publishedCount := JSNum.dec false 0 0, status := "Borrowed", height := "",
            publisher := "", location := "", _id := 101 } ] =
        Body.report "Bulk insert completed" sampleRows.length inserted.length
          ((validateRows sampleRows).1.filter (fun b =>
            (existingSet asciiToLowerCase existingBooks).contains (dupKey asciiToLowerCase b.title b.author))).length
          (validateRows sampleRows).2.length (validateRows sampleRows).2 inserted ∧
      (inserted.length = rows.length →
        sampleRows.length = inserted.length +
          ((validateRows sampleRows).1.filter (fun b =>
            (existingSet asciiToLowerCase existingBooks).contains (dupKey asciiToLowerCase b.title b.author))).length +
          (validateRows sampleRows).2.length) :=
  ⟨rfl, final_report_counts asciiToLowerCase (catalogStorage sampleCatalog storeAll) sampleRows _ rfl rfl⟩

/-! ## Objects -/

theorem get_set_self (o : JSObject) (k : String) (v : JSValue) : (o.set k v).get k = v := by
  induction o with
  | nil => simp [JSObject.set, JSObject.get]
  | cons e rest ih =>
    obtain ⟨k', v'⟩ := e
    by_cases hk : k' = k
    · simp [JSObject.set, JSObject.get, hk]
    · simp [JSObject.set, JSObject.get, hk, ih]

theorem get_set_other (o : JSObject) (k x : String) (v : JSValue) (hx : x ≠ k) :
    (o.set k v).get x = o.get x := by
  induction o with
  | nil =>
    have hx' : ¬ k = x := fun h => hx h.symm
    simp [JSObject.set, JSObject.get, hx']
  | cons e rest ih =>
    obtain ⟨k', v'⟩ := e
    by_cases hk : k' = k
    · have hx' : ¬ k = x := fun h => hx h.symm
      simp [JSObject.set, JSObject.get, hk, hx']
    · by_cases hkx : k' = x
      · subst hkx
        simp [JSObject.set, JSObject.get, hk]
      · simp [JSObject.set, JSObject.get, hk, hkx, ih]

theorem mem_keys_set (o : JSObject) (k x : String) (v : JSValue) :
    x ∈ (o.set k v).keys ↔ x = k ∨ x ∈ o.keys := by
  induction o with
  | nil => simp [JSObject.set, JSObject.keys]
  | cons e rest ih =>
    obtain ⟨k', v'⟩ := e
    by_cases hk : k' = k
    · subst hk
      simp [JSObject.set, JSObject.keys]
    · simp only [JSObject.keys] at ih
      simp only [JSObject.set, hk, if_false, JSObject.keys, List.map_cons, List.mem_cons, ih]
      tauto

/-! ## The loops of `normalizeRow` -/

/-- The inner loop over the keys finds none exactly when it started with none and
no key matches the alias. -/
theorem keyLoop_eq_none (v : String) (keys : List String) (found : Option String) :
    keys.foldl (fun found k => if stripHeader k = stripHeader v then some k else found) found
        = none ↔
      found = none ∧ ∀ k ∈ keys, stripHeader k ≠ stripHeader v := by
  induction keys generalizing found with
  | nil => simp
  | cons k t ih =>
    rw [List.foldl_cons, ih]
    by_cases hk : stripHeader k = stripHeader v
    · simp [hk]
    · simp [hk]

/-- The inner loop returns what it started with or a key matching the alias. -/
theorem keyLoop_cases (v : String) (keys : List String) (found : Option String) :
    keys.foldl (fun found k => if stripHeader k = stripHeader v then some k else found) found
        = found ∨
      ∃ k ∈ keys, stripHeader k = stripHeader v ∧
        keys.foldl (fun found k => if stripHeader k = stripHeader v then some k else found) found
          = some k := by
  induction keys generalizing found with
  | nil => exact Or.inl rfl
  | cons k t ih =>
    rw [List.foldl_cons]
    rcases ih (if stripHeader k = stripHeader v then some k else found) with h | ⟨k', hk', hm, h⟩
    · by_cases hk : stripHeader k = stripHeader v
      · right
        refine ⟨k, List.mem_cons_self _ _, hk, ?_⟩
        rw [h]; simp [hk]
      · left
        rw [h]; simp [hk]
    · right
      exact ⟨k', List.mem_cons_of_mem _ hk', hm, h⟩

/-- The inner loop ends on the last key that matches the alias. -/
theorem keyLoop_last (v : String) (pre post : List String) (k : String) (found : Option String)
    (hk : stripHeader k = stripHeader v) (hpost : ∀ k' ∈ post, stripHeader k' ≠ stripHeader v) :
    (pre ++ k :: post).foldl
        (fun found k => if stripHeader k = stripHeader v then some k else found) found
      = some k := by
  rw [List.foldl_append, List.foldl_cons]
  simp only [hk, if_true]
  rcases keyLoop_cases v post (some k) with h | ⟨k', hk', hm, _⟩
  · exact h
  · exact absurd hm (hpost k' hk')

/-- The loop over aliases finds none exactly when it started with none and no key
matches any alias. -/
theorem aliasLoop_eq_none (variants keys : List String) (found : Option String) :
    variants.foldl (fun found v =>
        keys.foldl (fun found k => if stripHeader k = stripHeader v then some k else found) found)
        found = none ↔
      found = none ∧ ∀ v ∈ variants, ∀ k ∈ keys, stripHeader k ≠ stripHeader v := by
  induction variants generalizing found with
  | nil => simp
  | cons v t ih =>
    rw [List.foldl_cons, ih, keyLoop_eq_none]
    simp only [List.mem_cons, forall_eq_or_imp]
    tauto

/-- The loop over aliases returns what it started with or a key matching an alias. -/
theorem aliasLoop_cases (variants keys : List String) (found : Option String) :
    variants.foldl (fun found v =>
        keys.foldl (fun found k => if stripHeader k = stripHeader v then some k else found) found)
        found = found ∨
      ∃ k ∈ keys, ∃ v ∈ variants, stripHeader k = stripHeader v ∧
        variants.foldl (fun found v =>
          keys.foldl (fun found k => if stripHeader k = stripHeader v then some k else found)
            found) found = some k := by
  induction variants generalizing found with
  | nil => exact Or.inl rfl
  | cons v t ih =>
    rw [List.foldl_cons]
    rcases ih (keys.foldl
        (fun found k => if stripHeader k = stripHeader v then some k else found) found) with
      h | ⟨k, hk, v', hv', hm, h⟩
    · rcases keyLoop_cases v keys found with h' | ⟨k, hk, hm, h'⟩
      · left; rw [h, h']
      · right
        exact ⟨k, hk, v, List.mem_cons_self _ _, hm, by rw [h, h']⟩
    · right
      exact ⟨k, hk, v', List.mem_cons_of_mem _ hv', hm, h⟩

/-- The loop over aliases is unchanged by aliases that no key matches. -/
theorem aliasLoop_no_match (variants keys : List String) (found : Option String)
    (h : ∀ v ∈ variants, ∀ k ∈ keys, stripHeader k ≠ stripHeader v) :
    variants.foldl (fun found v =>
        keys.foldl (fun found k => if stripHeader k = stripHeader v then some k else found) found)
        found = found := by
  rcases aliasLoop_cases variants keys found with h' | ⟨k, hk, v, hv, hm, _⟩
  · exact h'
  · exact absurd hm (h v hv k hk)

theorem findColumn_eq_none (variants : List String) (row : JSObject) :
    findColumn variants row = none ↔
      ∀ v ∈ variants, ∀ k ∈ row.keys, stripHeader k ≠ stripHeader v := by
  simp [findColumn, aliasLoop_eq_none]

theorem findColumn_eq_some (variants : List String) (row : JSObject) (k : String)
    (h : findColumn variants row = some k) :
    k ∈ row.keys ∧ ∃ v ∈ variants, stripHeader k = stripHeader v := by
  unfold findColumn at h
  rcases aliasLoop_cases variants row.keys none with h' | ⟨k', hk', v, hv, hm, h'⟩
  · rw [h'] at h; exact Option.noConfusion h
  · rw [h'] at h
    have hkk := Option.some.inj h
    subst hkk
    exact ⟨hk', v, hv, hm⟩

/-- The last alias in table order that some key matches decides, and among the
keys matching it the last in key order. -/
theorem findColumn_last (vpre vpost kpre kpost : List String) (v k : String) (row : JSObject)
    (hkeys : row.keys = kpre ++ k :: kpost)
    (hk : stripHeader k = stripHeader v)
    (hkpost : ∀ k' ∈ kpost, stripHeader k' ≠ stripHeader v)
    (hvpost : ∀ v' ∈ vpost, ∀ k' ∈ row.keys, stripHeader k' ≠ stripHeader v') :
    findColumn (vpre ++ v :: vpost) row = some k := by
  unfold findColumn
  rw [List.foldl_append, List.foldl_cons, aliasLoop_no_match vpost row.keys _ hvpost, hkeys]
  exact keyLoop_last v kpre kpost k _ hk hkpost

/-! ## The outer loop of `normalizeRow` -/

/-- Keys of the object built by the outer loop over a field table, from any start. -/
theorem mem_keys_fieldLoop (row : JSObject) (fm : List (String × List String))
    (acc : JSObject) (x : String) :
    x ∈ (fm.foldl (fun mapped kv =>
        match findColumn kv.2 row with
        | some found => mapped.set kv.1 (row.get found)
        | none => mapped) acc).keys ↔
      x ∈ acc.keys ∨ ∃ kv ∈ fm, kv.1 = x ∧ findColumn kv.2 row ≠ none := by
  induction fm generalizing acc with
  | nil => simp
  | cons kv rest ih =>
    rw [List.foldl_cons, ih]
    cases hf : findColumn kv.2 row with
    | none =>
      simp only [List.mem_cons, exists_eq_or_imp, hf, ne_eq, not_true_eq_false, and_false,
        false_or]
    | some found =>
      simp only [mem_keys_set, List.mem_cons, exists_eq_or_imp, hf, ne_eq, not_false_eq_true,
        and_true, reduceCtorEq]
      constructor
      · rintro ((h | h) | h)
        · exact Or.inr (Or.inl h.symm)
        · exact Or.inl h
        · exact Or.inr (Or.inr h)
      · rintro (h | h | h)
        · exact Or.inl (Or.inr h)
        · exact Or.inl (Or.inl h.symm)
        · exact Or.inr h

/-- A field that the rest of the table does not name keeps its value. -/
theorem get_fieldLoop_other (row : JSObject) (fm : List (String × List String))
    (acc : JSObject) (x : String) (hx : x ∉ fm.map Prod.fst) :
    (fm.foldl (fun mapped kv =>
        match findColumn kv.2 row with
        | some found => mapped.set kv.1 (row.get found)
        | none => mapped) acc).get x = acc.get x := by
  induction fm generalizing acc with
  | nil => rfl
  | cons kv rest ih =>
    simp only [List.map_cons, List.mem_cons, not_or] at hx
    rw [List.foldl_cons, ih _ hx.2]
    cases hf : findColumn kv.2 row with
    | none => rfl
    | some found => exact get_set_other _ _ _ _ hx.1

/-- The value the outer loop stores under a field of a table without repeated names. -/
theorem get_fieldLoop (row : JSObject) (fm : List (String × List String))
    (acc : JSObject) (hnd : (fm.map Prod.fst).Nodup) (f : String) (variants : List String)
    (hmem : (f, variants) ∈ fm) (k : String) (hk : findColumn variants row = some k) :
    (fm.foldl (fun mapped kv =>
        match findColumn kv.2 row with
        | some found => mapped.set kv.1 (row.get found)
        | none => mapped) acc).get f = row.get k := by
  induction fm generalizing acc with
  | nil => exact absurd hmem (List.not_mem_nil _)
  | cons kv rest ih =>
    simp only [List.map_cons, List.nodup_cons] at hnd
    rw [List.foldl_cons]
    rcases List.mem_cons.mp hmem with heq | hrest
    · subst heq
      rw [get_fieldLoop_other row rest _ _ hnd.1]
      simp only [hk]
      exact get_set_self _ _ _
    · exact ih _ hnd.2 hrest

/-- In a table without repeated names a name has one list of aliases. -/
theorem snd_unique (fm : List (String × List String)) (hnd : (fm.map Prod.fst).Nodup)
    (f : String) (a b : List String) (ha : (f, a) ∈ fm) (hb : (f, b) ∈ fm) : a = b := by
  induction fm with
  | nil => exact absurd ha (List.not_mem_nil _)
  | cons kv rest ih =>
    simp only [List.map_cons, List.nodup_cons] at hnd
    rcases List.mem_cons.mp ha with ha' | ha' <;> rcases List.mem_cons.mp hb with hb' | hb'
    · rw [← ha'] at hb'
      exact (Prod.mk.inj hb').2.symm
    · have hmem : (f, b).1 ∈ rest.map Prod.fst := List.mem_map_of_mem Prod.fst hb'
      rw [← ha'] at hnd
      exact absurd hmem hnd.1
    · have hmem : (f, a).1 ∈ rest.map Prod.fst := List.mem_map_of_mem Prod.fst ha'
      rw [← hb'] at hnd
      exact absurd hmem hnd.1
    · exact ih hnd.2 ha' hb'

theorem FIELD_MAP_nodup : (FIELD_MAP.map Prod.fst).Nodup := by decide

theorem FIELD_MAP_fields : FIELD_MAP.map Prod.fst = canonicalFields := by decide

/-- C7. For every raw row, every key of the output of `normalizeRow` is one of the
eight canonical field names, and a key of the row that is not a canonical field
name is not a key of the output. -/
theorem normalizeRow_keys_canonical (row : JSObject) :
    (∀ k ∈ (normalizeRow row).keys, k ∈ canonicalFields) ∧
      (∀ k ∈ row.keys, k ∉ canonicalFields → k ∉ (normalizeRow row).keys) := by
  have h1 : ∀ k ∈ (normalizeRow row).keys, k ∈ canonicalFields := by
    intro k hk
    unfold normalizeRow at hk
    rw [mem_keys_fieldLoop] at hk
    rcases hk with hk | ⟨kv, hkv, hkk, _⟩
    · simp [JSObject.keys] at hk
    · rw [← FIELD_MAP_fields, ← hkk]
      exact List.mem_map_of_mem _ hkv
  exact ⟨h1, fun k _ hnot hmem => hnot (h1 k hmem)⟩

/-- A field is in the output exactly when a key matches one of its aliases under
`stripHeader`, and a single matching key gives the value. -/
theorem field_of_stripHeader_match (row : JSObject) (f : String) (variants : List String)
    (hf : (f, variants) ∈ FIELD_MAP) :
    (f ∈ (normalizeRow row).keys ↔
        ∃ k ∈ row.keys, ∃ v ∈ variants, stripHeader k = stripHeader v) ∧
      (∀ k ∈ row.keys, (∃ v ∈ variants, stripHeader k = stripHeader v) →
        (∀ k' ∈ row.keys, (∃ v ∈ variants, stripHeader k' = stripHeader v) → k' = k) →
        (normalizeRow row).get f = row.get k) := by
  constructor
  · unfold normalizeRow
    rw [mem_keys_fieldLoop]
    constructor
    · rintro (h | ⟨kv, hkv, hkk, hne⟩)
      · simp [JSObject.keys] at h
      · have hvar : kv.2 = variants := by
          have hnd := FIELD_MAP_nodup
          have h1 : (kv.1, kv.2) ∈ FIELD_MAP := hkv
          rw [hkk] at h1
          exact snd_unique FIELD_MAP hnd f kv.2 variants h1 hf
        rw [hvar] at hne
        by_contra hno
        apply hne
        rw [findColumn_eq_none]
        intro v hv k hk hm
        exact hno ⟨k, hk, v, hv, hm⟩
    · rintro ⟨k, hk, v, hv, hm⟩
      right
      refine ⟨(f, variants), hf, rfl, ?_⟩
      intro hnone
      rw [findColumn_eq_none] at hnone
      exact hnone v hv k hk hm
  · intro k hk hmatch huniq
    cases hfc : findColumn variants row with
    | none =>
      obtain ⟨v, hv, hm⟩ := hmatch
      rw [findColumn_eq_none] at hfc
      exact absurd hm (hfc v hv k hk)
    | some k' =>
      obtain ⟨hk', hm'⟩ := findColumn_eq_some variants row k' hfc
      have hkk : k' = k := huniq k' hk' hm'
      rw [hkk] at hfc
      unfold normalizeRow
      exact get_fieldLoop row FIELD_MAP [] FIELD_MAP_nodup f variants hf k hfc

theorem normalizeRow_keys_canonical_witness :
    "ISBN" ∈ JSObject.keys [("Title", JSValue.string "Dune"), ("ISBN", JSValue.string "0441")] ∧
      "ISBN" ∉ (normalizeRow
        [("Title", JSValue.string "Dune"), ("ISBN", JSValue.string "0441")]).keys :=
  ⟨by decide,
   (normalizeRow_keys_canonical
      [("Title", JSValue.string "Dune"), ("ISBN", JSValue.string "0441")]).2
      "ISBN" (by decide) (by decide)⟩

/-! ## Header comparison against the specification -/

theorem isAlphanum_eq (c : Char) : c.isAlphanum = isAsciiLetterOrDigit c := by
  simp only [Char.isAlphanum, Char.isAlpha, Char.isUpper, Char.isLower, Char.isDigit,
    isAsciiLetterOrDigit]
  have h65 : (c.val ≥ 65 ↔ 65 ≤ c.toNat) := Iff.rfl
  have h90 : (c.val ≤ 90 ↔ c.toNat ≤ 90) := Iff.rfl
  have h97 : (c.val ≥ 97 ↔ 97 ≤ c.toNat) := Iff.rfl
  have h122 : (c.val ≤ 122 ↔ c.toNat ≤ 122) := Iff.rfl
  have h48 : (c.val ≥ 48 ↔ 48 ≤ c.toNat) := Iff.rfl
  have h57 : (c.val ≤ 57 ↔ c.toNat ≤ 57) := Iff.rfl
  rw [Bool.eq_iff_iff]
  simp only [Bool.or_eq_true, Bool.and_eq_true, decide_eq_true_eq]
  constructor
  · rintro ((⟨a, b⟩ | ⟨a, b⟩) | ⟨a, b⟩)
    · exact Or.inl (Or.inr ⟨h65.mp a, h90.mp b⟩)
    · exact Or.inl (Or.inl ⟨h97.mp a, h122.mp b⟩)
    · exact Or.inr ⟨h48.mp a, h57.mp b⟩
  · rintro ((⟨a, b⟩ | ⟨a, b⟩) | ⟨a, b⟩)
    · exact Or.inl (Or.inr ⟨h97.mpr a, h122.mpr b⟩)
    · exact Or.inl (Or.inl ⟨h65.mpr a, h90.mpr b⟩)
    · exact Or.inr ⟨h48.mpr a, h57.mpr b⟩

theorem toLower_eq_smallLetter (c : Char) : c.toLower = smallLetter c := by
  simp only [Char.toLower, smallLetter, ge_iff_le]

/-- The comparison expression of the code computes the form the specification names. -/
theorem stripHeader_data (s : String) : (stripHeader s).data = specHeaderForm s := by
  have h1 : Char.isAlphanum = isAsciiLetterOrDigit := funext isAlphanum_eq
  have h2 : Char.toLower = smallLetter := funext toLower_eq_smallLetter
  simp only [stripHeader, asciiToLowerCase, specHeaderForm, h1, h2]

theorem stripHeader_eq_iff (k v : String) :
    stripHeader k = stripHeader v ↔ specHeaderForm k = specHeaderForm v := by
  rw [← stripHeader_data, ← stripHeader_data]
  constructor
  · intro h; rw [h]
  · intro h; exact String.ext h

/-- C8. For every raw row and every canonical field `f` with aliases `variants`
in `FIELD_MAP`: the output of `normalizeRow` has the key `f` if and only if some
key of the row equals some alias of `f` once every non-alphanumeric character is
removed from both and both are lowercased; and when exactly one key of the row
matches in that way, the output maps `f` to the value the row holds under that
key. -/
theorem normalizeRow_field (row : JSObject) (f : String) (variants : List String)
    (hf : (f, variants) ∈ FIELD_MAP) :
    (f ∈ (normalizeRow row).keys ↔
        ∃ k ∈ row.keys, ∃ v ∈ variants, specHeaderForm k = specHeaderForm v) ∧
      (∀ k ∈ row.keys, (∃ v ∈ variants, specHeaderForm k = specHeaderForm v) →
        (∀ k' ∈ row.keys, (∃ v ∈ variants, specHeaderForm k' = specHeaderForm v) → k' = k) →
        (normalizeRow row).get f = row.get k) := by
  have hstrip := field_of_stripHeader_match row f variants hf
  have hmatch : ∀ k : String, (∃ v ∈ variants, stripHeader k = stripHeader v) ↔
      (∃ v ∈ variants, specHeaderForm k = specHeaderForm v) := by
    intro k
    constructor
    · rintro ⟨v, hv, h⟩; exact ⟨v, hv, (stripHeader_eq_iff k v).mp h⟩
    · rintro ⟨v, hv, h⟩; exact ⟨v, hv, (stripHeader_eq_iff k v).mpr h⟩
  constructor
  · rw [hstrip.1]
    constructor
    · rintro ⟨k, hk, hm⟩; exact ⟨k, hk, (hmatch k).mp hm⟩
    · rintro ⟨k, hk, hm⟩; exact ⟨k, hk, (hmatch k).mpr hm⟩
  · intro k hk hm huniq
    exact hstrip.2 k hk ((hmatch k).mpr hm)
      (fun k' hk' hm' => huniq k' hk' ((hmatch k').mp hm'))

theorem normalizeRow_field_witness :
    (normalizeRow [("TITLE", JSValue.string "Dune"), (" Publication-COUNT ", JSValue.string "7"),
        ("Genres", JSValue.string "SF"), ("ISBN", JSValue.string "0441")]).get "publishedCount" =
      JSValue.string "7" ∧
    "title" ∈ (normalizeRow [("TITLE", JSValue.string "Dune"),
        (" Publication-COUNT ", JSValue.string "7"), ("Genres", JSValue.string "SF"),
        ("ISBN", JSValue.string "0441")]).keys ∧
    ¬ ("genre" ∈ (normalizeRow [("TITLE", JSValue.string "Dune"),
        (" Publication-COUNT ", JSValue.string "7"), ("Genres", JSValue.string "SF"),
        ("ISBN", JSValue.string "0441")]).keys) :=
  ⟨(normalizeRow_field
      [("TITLE", JSValue.string "Dune"), (" Publication-COUNT ", JSValue.string "7"),
        ("Genres", JSValue.string "SF"), ("ISBN", JSValue.string "0441")]
      "publishedCount"
      ["publishedcount", "published_count", "Publication_Count", "publishedCount"]
      (by decide)).2 " Publication-COUNT " (by decide) (by decide) (by decide),
   (normalizeRow_field
      [("TITLE", JSValue.string "Dune"), (" Publication-COUNT ", JSValue.string "7"),
        ("Genres", JSValue.string "SF"), ("ISBN", JSValue.string "0441")]
      "title" ["title", "Title"] (by decide)).1.mpr (by decide),
   fun hmem =>
    absurd ((normalizeRow_field
      [("TITLE", JSValue.string "Dune"), (" Publication-COUNT ", JSValue.string "7"),
        ("Genres", JSValue.string "SF"), ("ISBN", JSValue.string "0441")]
      "genre" ["genre", "Genre"] (by decide)).1.mp hmem) (by decide)⟩

/-- C9, as stated, fails: in a row holding `publishedCount` and then
`Publication_Count`, the matching key that comes last is `Publication_Count`, yet
the output takes the value of `publishedCount`; in a row holding
`Library_Location` and then `location`, the output takes the value of
`Library_Location`. -/
theorem last_key_does_not_win :
    normalizeRow [("publishedCount", JSValue.string "1"),
        ("Publication_Count", JSValue.string "2")] =
      [("publishedCount", JSValue.string "1")] ∧
    normalizeRow [("Library_Location", JSValue.string "A"), ("location", JSValue.string "B")] =
      [("location", JSValue.string "A")] := by
  decide

/-- C9, amended. For every raw row and canonical field `f`: let `v` be the alias
of `f` latest in the order of `FIELD_MAP` that some key of the row matches, and
`k` the key latest in the row's key order among those matching `v`; the output of
`normalizeRow` maps `f` to the value the row holds under `k`. -/
theorem normalizeRow_last_alias_wins (row : JSObject) (f : String)
    (vpre vpost kpre kpost : List String) (v k : String)
    (hf : (f, vpre ++ v :: vpost) ∈ FIELD_MAP)
    (hkeys : row.keys = kpre ++ k :: kpost)
    (hk : stripHeader k = stripHeader v)
    (hkpost : ∀ k' ∈ kpost, stripHeader k' ≠ stripHeader v)
    (hvpost : ∀ v' ∈ vpost, ∀ k' ∈ row.keys, stripHeader k' ≠ stripHeader v') :
    (normalizeRow row).get f = row.get k := by
  unfold normalizeRow
  exact get_fieldLoop row FIELD_MAP [] FIELD_MAP_nodup f _ hf k
    (findColumn_last vpre vpost kpre kpost v k row hkeys hk hkpost hvpost)

theorem normalizeRow_last_alias_wins_witness :
    (normalizeRow [("Publication_Count", JSValue.string "2"), ("PublishedCount", JSValue.string "5"),
        ("publishedCount", JSValue.string "1")]).get "publishedCount" = JSValue.string "1" ∧
    (normalizeRow [("publishedCount", JSValue.string "1"), ("PublishedCount", JSValue.string "5"),
        ("Publication_Count", JSValue.string "2")]).get "publishedCount" = JSValue.string "5" :=
  ⟨normalizeRow_last_alias_wins
      [("Publication_Count", JSValue.string "2"), ("PublishedCount", JSValue.string "5"),
        ("publishedCount", JSValue.string "1")]
      "publishedCount" ["publishedcount", "published_count", "Publication_Count"] []
      ["Publication_Count", "PublishedCount"] [] "publishedCount" "publishedCount"
      (by decide) (by decide) (by decide) (by decide) (by decide),
   normalizeRow_last_alias_wins
      [("publishedCount", JSValue.string "1"), ("PublishedCount", JSValue.string "5"),
        ("Publication_Count", JSValue.string "2")]
      "publishedCount" ["publishedcount", "published_count", "Publication_Count"] []
      ["publishedCount"] ["Publication_Count"] "publishedCount" "PublishedCount"
      (by decide) (by decide) (by decide) (by decide) (by decide)⟩

/-- C10 on the code. Starting with the temporary file present: when reading the
file throws, for a `.csv` or a `.xlsx` upload, the handler answers 500 and the
file still exists; on every path where reading succeeds, and for every
unsupported extension, the file is gone when the handler has responded. -/
theorem upload_temp_file_fate (toLowerCase : String → String) (db : Storage) (e : String) :
    uploadHandler toLowerCase db "books.csv" (Except.error e) true =
        (⟨500, Body.failure "Failed to upload books" e⟩, true) ∧
      uploadHandler toLowerCase db "books.xlsx" (Except.error e) true =
        (⟨500, Body.failure "Failed to upload books" e⟩, true) ∧
      uploadHandler toLowerCase db "notes.txt" (Except.error e) true =
        (⟨400, Body.message "Unsupported file type"⟩, false) ∧
      ∀ (originalname : String) (rows : List JSObject),
        (uploadHandler toLowerCase db originalname (Except.ok rows) true).2 = false := by
  refine ⟨?_, ?_, ?_, ?_⟩
  · have hext : fileExtension "books.csv" = "csv" := by decide
    simp [uploadHandler, uploadTry, hext]
  · have hext : fileExtension "books.xlsx" = "xlsx" := by decide
    have hne : ¬ (("xlsx" : String) = "csv") := by decide
    simp [uploadHandler, uploadTry, hext, hne]
  · have hext : fileExtension "notes.txt" = "txt" := by decide
    have h1 : ¬ (("txt" : String) = "csv") := by decide
    have h2 : ¬ (("txt" : String) = "xlsx" ∨ ("txt" : String) = "xlsm") := by decide
    simp [uploadHandler, uploadTry, hext, h1, h2, unlinkSync]
  · intro originalname rows
    have hafter : ∀ books, (afterParse toLowerCase db books true).2 = false := by
      intro books
      unfold afterParse unlinkSync
      by_cases hb : books.length = 0 <;> simp [hb]
    have htry : (uploadTry toLowerCase db originalname (Except.ok rows) true).2 = false := by
      unfold uploadTry
      by_cases h1 : fileExtension originalname = "csv"
      · simp only [h1, if_true]; exact hafter _
      · by_cases h2 : fileExtension originalname = "xlsx" ∨ fileExtension originalname = "xlsm"
        · simp only [h1, h2, if_true, if_false]; exact hafter _
        · simp [h1, h2, unlinkSync]
    unfold uploadHandler
    split
    · next res st heq => rw [heq] at htry; exact htry
    · next err st heq => rw [heq] at htry; exact htry

/-- Indices of an enumerated list increase strictly. -/
theorem enum_pairwise_fst_lt (books : List JSObject) :
    (books.enum).Pairwise (fun a b => a.1 < b.1) := by
  have h : ((books.enum).map Prod.fst).Pairwise (fun a b => a < b) := by
    rw [List.enum_map_fst]
    exact List.pairwise_lt_range _
  exact List.pairwise_map.mp h

/-- C11. Validation keeps the submitted order and numbers the rows from 2:
`validBooks` is the list of coerced rows that pass the test, in submitted order;
`invalidBooks` is the list of entries `{ row: i + 2, ...b }` for the rows that
fail it, with `b` the coerced row at index `i`, in submitted order, so its row
numbers increase strictly; every invalid row at index `i` has its entry with
`row = i + 2` and every entry comes from such a row; and the two lengths add up
to the number of submitted rows. -/
theorem validation_order_preserving (books : List JSObject) :
    (validateRows books).1 = (books.map coerceBook).filter (fun b => !isInvalid b) ∧
    (validateRows books).2 =
      (books.enum.filter (fun ib => isInvalid (coerceBook ib.2))).map
        (fun ib => ({ toBook := coerceBook ib.2, row := ib.1 + 2 } : InvalidBook)) ∧
    ((validateRows books).2.map InvalidBook.row).Pairwise (fun r s => r < s) ∧
    (∀ i r, books[i]? = some r → isInvalid (coerceBook r) = true →
      ({ toBook := coerceBook r, row := i + 2 } : InvalidBook) ∈ (validateRows books).2) ∧
    (∀ x ∈ (validateRows books).2, ∃ i r, books[i]? = some r ∧
      isInvalid (coerceBook r) = true ∧ x.row = i + 2 ∧ x.toBook = coerceBook r) ∧
    (validateRows books).1.length + (validateRows books).2.length = books.length := by
  refine ⟨?_, ?_, ?_, ?_, ?_, length_valid_add_invalid books⟩
  · rw [validateRows_eq]
  · rw [validateRows_eq]
  · rw [validateRows_eq]
    simp only [List.map_map]
    apply List.Pairwise.map _ _ ((enum_pairwise_fst_lt books).filter _)
    intro a b hab
    simp only [Function.comp]
    omega
  · intro i r hi hr
    rw [mem_invalidBooks]
    exact ⟨i, r, hi, hr, rfl⟩
  · intro x hx
    rw [mem_invalidBooks] at hx
    obtain ⟨i, r, hi, hr, hx⟩ := hx
    exact ⟨i, r, hi, hr, by rw [hx], by rw [hx]⟩

theorem validation_order_preserving_witness :
    validateRows sampleRows =
      ([ { title := "Emma", author := "Austen", genre := "",
           publishedCount := JSNum.dec false 0 0, status := "Available", height := "",
           publisher := "", location := "" },
         { title := "Dune", author := "Herbert", genre := "",
           publishedCount := JSNum.dec false 0 0, status := "Available", height := "",
           publisher := "", location := "" },
         { title := "Walden", author := "Thoreau", genre := "",
           publishedCount := JSNum.dec false 0 0, status := "Borrowed", height := "",
           publisher := "", location := "" } ],
       [ { title := "Ulysses", author := "", genre := "", publishedCount := JSNum.dec false 0 0,
           status := "Available", height := "", publisher := "", location := "", row := 3 },
         { title := "Hamlet", author := "Shakespeare", genre := "",
           publishedCount := JSNum.dec true 1 0, status := "Available", height := "",
           publisher := "", location := "", row := 5 } ]) ∧
    (validateRows sampleRows).1.length + (validateRows sampleRows).2.length =
      sampleRows.length :=
  ⟨by decide, (validation_order_preserving sampleRows).2.2.2.2.2⟩

/-! ## The duplicate key -/

theorem dupKey_data (toLowerCase : String → String) (t a : String) :
    (dupKey toLowerCase t a).data = (toLowerCase t).data ++ '-' :: (toLowerCase a).data := by
  simp [dupKey, String.data_append]

/-- Two lists split at a separator that occurs in neither left part agree part by part. -/
theorem split_left_unique (x : Char) (l1 l2 r1 r2 : List Char) (h1 : x ∉ l1) (h2 : x ∉ l2)
    (h : l1 ++ x :: r1 = l2 ++ x :: r2) : l1 = l2 ∧ r1 = r2 := by
  induction l1 generalizing l2 with
  | nil =>
    cases l2 with
    | nil => exact ⟨rfl, by simpa using h⟩
    | cons b t =>
      simp only [List.nil_append, List.cons_append, List.cons.injEq] at h
      exact absurd (by rw [h.1]; exact List.mem_cons_self _ _) h2
  | cons a t ih =>
    cases l2 with
    | nil =>
      simp only [List.nil_append, List.cons_append, List.cons.injEq] at h
      exact absurd (by rw [← h.1]; exact List.mem_cons_self _ _) h1
    | cons b t2 =>
      simp only [List.cons_append, List.cons.injEq] at h
      obtain ⟨hab, ht⟩ := h
      have := ih t2 (fun hm => h1 (List.mem_cons_of_mem _ hm))
        (fun hm => h2 (List.mem_cons_of_mem _ hm)) ht
      exact ⟨by rw [hab, this.1], this.2⟩

/-- Two lists split at a separator that occurs in neither right part agree part by part. -/
theorem split_right_unique (x : Char) (l1 l2 r1 r2 : List Char) (h1 : x ∉ r1) (h2 : x ∉ r2)
    (h : l1 ++ x :: r1 = l2 ++ x :: r2) : l1 = l2 ∧ r1 = r2 := by
  have hrev : r1.reverse ++ x :: l1.reverse = r2.reverse ++ x :: l2.reverse := by
    have := congrArg List.reverse h
    simpa using this
  have := split_left_unique x r1.reverse r2.reverse l1.reverse l2.reverse
    (by simpa using h1) (by simpa using h2) hrev
  exact ⟨List.reverse_injective this.2, List.reverse_injective this.1⟩

/-- C12, as stated, fails: the pairs (`Spider-Man`, `Lee`) and (`Spider`,
`Man-Lee`) have the same key although their lowercased titles differ; and with
the first in the catalog, a submitted row for the second is filtered out as a
duplicate (both rows are counted as duplicates, nothing is inserted) although no
catalog book has its title. -/
theorem dash_key_collision :
    dupKey asciiToLowerCase "Spider-Man" "Lee" = dupKey asciiToLowerCase "Spider" "Man-Lee" ∧
    asciiToLowerCase "Spider-Man" ≠ asciiToLowerCase "Spider" ∧
    (validateAndInsertBooks asciiToLowerCase
      (catalogStorage
        [{ title := "Spider-Man", author := "Lee", genre := "",
           publishedCount := JSNum.dec false 0 0, status := "Available", height := "",
           publisher := "", location := "", _id := 1 }]
        storeAll)
      [[("title", JSValue.string "Spider-Man"), ("author", JSValue.string "Lee")],
       [("title", JSValue.string "Spider"), ("author", JSValue.string "Man-Lee")]]).result =
      Except.ok ⟨400, Body.allDuplicates "All submitted books already exist." 2 []⟩ := by
  refine ⟨by decide, by decide, rfl⟩

/-- C12, amended. For every lowercasing method: equal lowercased titles and equal
lowercased authors give equal keys. Conversely equal keys give equal lowercased
titles and equal lowercased authors when neither lowercased title contains `-`,
or when neither lowercased author contains `-`. A valid row that is not forwarded
has the key of a book returned by the existence query, and under that condition
on the two titles or the two authors it has that book's title and author ignoring
case. -/
theorem dupKey_identifies_pair (toLowerCase : String → String) :
    (∀ t1 t2 a1 a2 : String,
      toLowerCase t1 = toLowerCase t2 ∧ toLowerCase a1 = toLowerCase a2 →
        dupKey toLowerCase t1 a1 = dupKey toLowerCase t2 a2) ∧
    (∀ t1 t2 a1 a2 : String,
      (('-' ∉ (toLowerCase t1).data ∧ '-' ∉ (toLowerCase t2).data) ∨
        ('-' ∉ (toLowerCase a1).data ∧ '-' ∉ (toLowerCase a2).data)) →
      dupKey toLowerCase t1 a1 = dupKey toLowerCase t2 a2 →
        toLowerCase t1 = toLowerCase t2 ∧ toLowerCase a1 = toLowerCase a2) ∧
    (∀ (existingBooks : List CatalogBook) (validBooks : List Book) (b : Book),
      b ∈ validBooks → b ∉ newBooks toLowerCase existingBooks validBooks →
      ∃ c ∈ existingBooks,
        dupKey toLowerCase c.title c.author = dupKey toLowerCase b.title b.author ∧
        ((('-' ∉ (toLowerCase c.title).data ∧ '-' ∉ (toLowerCase b.title).data) ∨
            ('-' ∉ (toLowerCase c.author).data ∧ '-' ∉ (toLowerCase b.author).data)) →
          toLowerCase c.title = toLowerCase b.title ∧
            toLowerCase c.author = toLowerCase b.author)) := by
  have hconv : ∀ t1 t2 a1 a2 : String,
      (('-' ∉ (toLowerCase t1).data ∧ '-' ∉ (toLowerCase t2).data) ∨
        ('-' ∉ (toLowerCase a1).data ∧ '-' ∉ (toLowerCase a2).data)) →
      dupKey toLowerCase t1 a1 = dupKey toLowerCase t2 a2 →
        toLowerCase t1 = toLowerCase t2 ∧ toLowerCase a1 = toLowerCase a2 := by
    intro t1 t2 a1 a2 hcond hkey
    have hdata : (toLowerCase t1).data ++ '-' :: (toLowerCase a1).data =
        (toLowerCase t2).data ++ '-' :: (toLowerCase a2).data := by
      rw [← dupKey_data, ← dupKey_data, hkey]
    have hparts : (toLowerCase t1).data = (toLowerCase t2).data ∧
        (toLowerCase a1).data = (toLowerCase a2).data := by
      rcases hcond with ⟨h1, h2⟩ | ⟨h1, h2⟩
      · exact split_left_unique _ _ _ _ _ h1 h2 hdata
      · exact split_right_unique _ _ _ _ _ h1 h2 hdata
    exact ⟨String.ext hparts.1, String.ext hparts.2⟩
  refine ⟨?_, hconv, ?_⟩
  · rintro t1 t2 a1 a2 ⟨ht, ha⟩
    simp only [dupKey, ht, ha]
  · intro existingBooks validBooks b hb hnot
    rw [mem_newBooks] at hnot
    push_neg at hnot
    obtain ⟨c, hc, hkey⟩ := hnot hb
    exact ⟨c, hc, hkey, fun hcond => hconv _ _ _ _ hcond hkey⟩

theorem dupKey_identifies_pair_witness :
    asciiToLowerCase "DUNE" = asciiToLowerCase "Dune" ∧
      asciiToLowerCase "Frank Herbert-Smith" = asciiToLowerCase "frank herbert-smith" :=
  (dupKey_identifies_pair asciiToLowerCase).2.1 "DUNE" "Dune" "Frank Herbert-Smith"
    "frank herbert-smith" (Or.inl ⟨by decide, by decide⟩) (by decide)

/-- The filter follows the lowercasing method of the runtime on any letters: with
`ÉMILE` / `Zola` in the catalog, and a method that folds `ÉMILE` and `émile`, `Zola`
and `zola` to the same strings, both submitted rows are counted as duplicates and
nothing is passed to the insert. -/
theorem case_variant_filtered_by_runtime_folding (toLowerCase : String → String)
    (insertMany : List Book → Except String (List CatalogBook))
    (ht : toLowerCase "ÉMILE" = toLowerCase "émile")
    (ha : toLowerCase "Zola" = toLowerCase "zola") :
    (validateAndInsertBooks toLowerCase
      (catalogStorage
        [{ title := "ÉMILE", author := "Zola", genre := "",
           publishedCount := JSNum.dec false 0 0, status := "Available", height := "",
           publisher := "", location := "", _id := 1 }]
        insertMany)
      [[("title", JSValue.string "ÉMILE"), ("author", JSValue.string "Zola")],
       [("title", JSValue.string "émile"), ("author", JSValue.string "zola")]]).result =
      Except.ok ⟨400, Body.allDuplicates "All submitted books already exist." 2 []⟩ := by
  have hv : validateRows
      [[("title", JSValue.string "ÉMILE"), ("author", JSValue.string "Zola")],
       [("title", JSValue.string "émile"), ("author", JSValue.string "zola")]] =
      ([{ title := "ÉMILE", author := "Zola", genre := "",
          publishedCount := JSNum.dec false 0 0, status := "Available", height := "",
          publisher := "", location := "" },
        { title := "émile", author := "zola", genre := "",
          publishedCount := JSNum.dec false 0 0, status := "Available", height := "",
          publisher := "", location := "" }], []) := by decide
  have hfind : findBooks
      [{ title := "ÉMILE", author := "Zola", genre := "",
         publishedCount := JSNum.dec false 0 0, status := "Available", height := "",
         publisher := "", location := "", _id := 1 }]
      [("ÉMILE", "Zola"), ("émile", "zola")] =
      [{ title := "ÉMILE", author := "Zola", genre := "",
         publishedCount := JSNum.dec false 0 0, status := "Available", height := "",
         publisher := "", location := "", _id := 1 }] := by decide
  simp [validateAndInsertBooks, hv, catalogStorage, hfind, newBooks, existingSet, dupKey, ht, ha]

end Athenaeum
